import Mathlib

/-!
# pshawn-rpc: registry and discovery

A shallow embedding of `registry/registry.go`, `xclient/discovery.go` and
`xclient/discovery_pshawn.go`, followed by the properties proved about it.

Conventions of the embedding:

* `time.Time` and `time.Duration` are integers counting nanoseconds on one
  time line; `t.Add(d)` is `t + d` and `t.After(u)` is `u < t`.  (A
  `time.Time` saturates only some hundred thousand million years away from
  any reading of the clock, a `Duration` spans at most 292 years.)
* `time.Now()` is an input of each operation, since the clock is outside
  the program.
* a mutex-protected method is a function from the state before the call to
  the result and the state after it.
* a Go map is an association list with unique keys (`AList`); the order of
  its entries plays the part of Go's unspecified iteration order.
* Go `int` is the 64-bit two's complement integer (`wrapInt`), `%` is the
  truncated remainder `Int.tmod`.
-/

namespace Registry

/-- ServerItem is a server instance: `Addr` and the time `start` of its last announce. -/
structure ServerItem where
  Addr : String
  start : Int
deriving DecidableEq, Repr

/-- PshawnRegistry: the configured `timeout` and the map `servers` from address
to item (the mutex is not part of the state). -/
structure PshawnRegistry where
  timeout : Int
  servers : AList (fun _ : String => ServerItem)

/-- The constant `defaultTimeout = time.Minute * 5`, in nanoseconds. -/
def defaultTimeout : Int := 5 * 60 * 1000000000

/-- New creates a registry instance with timeout setting and an empty map. -/
def New (timeout : Int) : PshawnRegistry :=
  { timeout := timeout, servers := ∅ }

/-- putServer puts a new server or refreshes an existing server; `now` is the
reading of `time.Now()`.  An existing item is updated through its pointer, so
it stays in its slot of the map. -/
def PshawnRegistry.putServer (r : PshawnRegistry) (addr : String) (now : Int) : PshawnRegistry :=
  match r.servers.lookup addr with
  | none => { r with servers := r.servers.insert addr { Addr := addr, start := now } }
  | some s => { r with servers := r.servers.replace addr { s with start := now } }

/-- Go's `a < b` on strings: the lexicographic comparison, character by
character (the order of the code points is the order of their UTF-8 bytes). -/
def lessChars : List Char → List Char → Bool
  | _, [] => false
  | [], _ :: _ => true
  | a :: as, b :: bs => if a < b then true else if a = b then lessChars as bs else false

/-- The comparison `x[i] < x[j]` that `sort.Strings` sorts by. -/
def stringLess (a b : String) : Bool :=
  lessChars a.data b.data

/-- The call `sort.Strings(x)`: `x` in increasing order.  (Equal strings are
indistinguishable, so every sorting algorithm gives the same slice.) -/
def sortStrings (x : List String) : List String :=
  x.insertionSort (fun a b => stringLess b a = false)

/-- The test of the loop of `aliveServers`:
`r.timeout == 0 || s.start.Add(r.timeout).After(time.Now())`. -/
def isAlive (timeout : Int) (now : Int) (s : ServerItem) : Bool :=
  timeout == 0 || decide (now < s.start + timeout)

/-- One iteration of the loop of `aliveServers` on the entry `e`: the address is
appended to `alive`, or the entry is deleted from the map.  `clock e.1` is the
reading of `time.Now()` in this iteration. -/
def aliveStep (timeout : Int) (clock : String → Int)
    (acc : List String × AList (fun _ : String => ServerItem))
    (e : Sigma (fun _ : String => ServerItem)) :
    List String × AList (fun _ : String => ServerItem) :=
  if isAlive timeout (clock e.1) e.2 then (acc.1 ++ [e.1], acc.2)
  else (acc.1, acc.2.erase e.1)

/-- The function `aliveServers` with the clock read once per iteration, as the
source does: the loop ranges over the entries of the map, an expired entry is
deleted in the same pass, and the collected addresses are sorted
(`sort.Strings`).  Returns the sorted slice and the registry after the call. -/
def PshawnRegistry.aliveServersAt (r : PshawnRegistry) (clock : String → Int) :
    List String × PshawnRegistry :=
  let res := r.servers.entries.foldl (aliveStep r.timeout clock) ([], r.servers)
  (sortStrings res.1, { r with servers := res.2 })

/-- aliveServers returns all alive servers, for a call during which the clock
reads `now`. -/
def PshawnRegistry.aliveServers (r : PshawnRegistry) (now : Int) : List String × PshawnRegistry :=
  r.aliveServersAt (fun _ => now)

/-- The registry of the end-to-end scenario: ttl = 200ms, and `"S1"` and `"S2"`
announced at time 0. -/
def scenario : PshawnRegistry :=
  ((New 200000000).putServer "S1" 0).putServer "S2" 0

/-- A registry with ttl = 200 holding an entry announced at 0 and one announced
at 100. -/
def mixedRegistry : PshawnRegistry :=
  ((New 200).putServer "S1" 0).putServer "S2" 100

/-- A registry with ttl = 0 holding two entries. -/
def foreverRegistry : PshawnRegistry :=
  ((New 0).putServer "S1" 0).putServer "S2" 5

/-- The call `strings.Join(elems, sep)`: nothing for no element, else the first
element followed by `sep` and an element for each of the others. -/
def Join : List String → String → String
  | [], _ => ""
  | a :: rest, sep => rest.foldl (fun b s => b ++ sep ++ s) a

/-- What the handler reads of a request: the method and the value of the header
`X-PshawnRPC-Server` as `req.Header.Get` gives it, empty when the header is
absent. -/
structure Request where
  Method : String
  server : String
deriving DecidableEq, Repr

/-- What the handler writes of a response: the status code (200 when
`WriteHeader` is not called) and the value set for the header
`X-PshawnRPC-Servers`, if one is set. -/
structure Response where
  statusCode : Nat
  servers : Option String
deriving DecidableEq, Repr

/-- The constant `http.StatusOK`. -/
def StatusOK : Nat := 200

/-- The constant `http.StatusInternalServerError`. -/
def StatusInternalServerError : Nat := 500

/-- The constant `http.StatusMethodNotAllowed`. -/
def StatusMethodNotAllowed : Nat := 405

/-- The handler `ServeHTTP`: a GET sets the servers header to the joined alive
servers, a POST puts the server named by its header or answers 500 when the
header is empty, any other method is answered 405.  `now` is the reading of the
clock during the call. -/
def PshawnRegistry.ServeHTTP (r : PshawnRegistry) (req : Request) (now : Int) :
    Response × PshawnRegistry :=
  if req.Method = "GET" then
    ({ statusCode := StatusOK, servers := some (Join (r.aliveServers now).1 ",") },
      (r.aliveServers now).2)
  else if req.Method = "POST" then
    if req.server = "" then ({ statusCode := StatusInternalServerError, servers := none }, r)
    else ({ statusCode := StatusOK, servers := none }, r.putServer req.server now)
  else ({ statusCode := StatusMethodNotAllowed, servers := none }, r)

/-- What `httpClient.Do(req)` returns in `sendHeartbeat`: an error and no
response, or a response, of which the status code is kept. -/
inductive HttpDoResult where
  | failed (err : String)
  | response (statusCode : Nat)
deriving DecidableEq, Repr

/-- The function `sendHeartbeat`, given what `httpClient.Do` returns: the error
of the call, or `nil` when a response came back. -/
def sendHeartbeat (o : HttpDoResult) : Option String :=
  match o with
  | HttpDoResult.failed err => some err
  | HttpDoResult.response _ => none

/-- The loop `for err == nil { <-t.C; err = sendHeartbeat(registry, addr) }` of
the goroutine of `Heartbeat`, run while `ticks` ticks are received.  The state
is the variable `err` and the number of announces sent so far; `outcome i` is
what `httpClient.Do` returns at the announce number `i`. -/
def heartbeatLoop (outcome : Nat → HttpDoResult) : Nat → Option String × Nat → Option String × Nat
  | 0, st => st
  | ticks + 1, (err, sent) =>
    match err with
    | some e => (some e, sent)
    | none => heartbeatLoop outcome ticks (sendHeartbeat (outcome sent), sent + 1)

/-- The function `Heartbeat` up to the moment `ticks` ticks of its ticker have
been received: one announce at once, then the loop.  The result is the variable
`err` and the number of announces sent.  (The period of the ticker, `duration`
or four minutes when it is 0, decides when the ticks come, not what is done at
each.) -/
def Heartbeat (outcome : Nat → HttpDoResult) (ticks : Nat) : Option String × Nat :=
  heartbeatLoop outcome ticks (sendHeartbeat (outcome 0), 1)

end Registry

namespace XClient

/-- SelectMode is an `int`; `RandomSelect` and `RoundRobinSelect` are its two
named values. -/
abbrev SelectMode := Int

/-- Select randomly. -/
def RandomSelect : SelectMode := 0

/-- Select using round-robin algorithm. -/
def RoundRobinSelect : SelectMode := 1

/-- The largest value of a Go `int`. -/
def maxInt : Int := 2 ^ 63 - 1

/-- The constant `math.MaxInt32`. -/
def MaxInt32 : Int := 2 ^ 31 - 1

/-- The value an `int` holds after an arithmetic operation whose exact result
is `x`: two's complement on 64 bits. -/
def wrapInt (x : Int) : Int :=
  (x + 2 ^ 63) % 2 ^ 64 - 2 ^ 63

/-- The error of `Get` on an empty list. -/
def errNoServers : String := "rpc discovery: no available servers"

/-- The error of `Get` on an unknown mode. -/
def errSelectMode : String := "rpc discovery: not supported select mode"

/-- MultiServerDiscovery: the server list and the index of the round-robin
algorithm.  The random source `r` is outside the state: what it draws is an
input of the operation that draws. -/
structure MultiServerDiscovery where
  servers : List String
  index : Int
deriving DecidableEq, Repr

/-- NewMultiServerDiscovery returns a MultiServerDiscovery; `draw` is the value
of `d.r.Intn(math.MaxInt32 - 1)`. -/
def NewMultiServerDiscovery (servers : List String) (draw : Int) : MultiServerDiscovery :=
  { servers := servers, index := draw }

/-- The indexing `s[i]` of a slice: `none` is the run-time panic on an index
out of range. -/
def sliceAt (s : List String) (i : Int) : Option String :=
  if i < 0 then none else s[i.toNat]?

/-- Refresh doesn't make sense for MultiServerDiscovery, so ignore it. -/
def MultiServerDiscovery.Refresh (d : MultiServerDiscovery) : Option String × MultiServerDiscovery :=
  (none, d)

/-- Update the servers of discovery dynamically if needed. -/
def MultiServerDiscovery.Update (d : MultiServerDiscovery) (servers : List String) :
    Option String × MultiServerDiscovery :=
  (none, { d with servers := servers })

/-- Get a server according to mode.  `draw` is the value of `d.r.Intn(n)`, used
by `RandomSelect` only.  The result is the pair `(string, error)` and the state
after the call, or `none` when the call panics. -/
def MultiServerDiscovery.Get (d : MultiServerDiscovery) (mode : SelectMode) (draw : Int) :
    Option ((String × Option String) × MultiServerDiscovery) :=
  let n : Int := d.servers.length
  if n = 0 then some (("", some errNoServers), d)
  else if mode = RandomSelect then
    (sliceAt d.servers draw).map (fun server => ((server, none), d))
  else if mode = RoundRobinSelect then
    (sliceAt d.servers (Int.tmod d.index n)).map
      (fun server => ((server, none), { d with index := Int.tmod (wrapInt (d.index + 1)) n }))
  else some (("", some errSelectMode), d)

/-- GetAll returns all servers (a copy of the list). -/
def MultiServerDiscovery.GetAll (d : MultiServerDiscovery) :
    (List String × Option String) × MultiServerDiscovery :=
  ((d.servers, none), d)

/-- The states a MultiServerDiscovery goes through: it is made by
`NewMultiServerDiscovery`, whose index is drawn from `[0, MaxInt32 - 1)`, and
then changed by `Update`, `Get` and `GetAll`.  A slice has at most `maxInt`
elements. -/
inductive Reachable : MultiServerDiscovery → Prop
  | new (servers : List String) (draw : Int) :
      (servers.length : Int) ≤ maxInt → 0 ≤ draw → draw < MaxInt32 - 1 →
      Reachable (NewMultiServerDiscovery servers draw)
  | update (d : MultiServerDiscovery) (servers : List String) :
      Reachable d → (servers.length : Int) ≤ maxInt → Reachable (d.Update servers).2
  | get (d : MultiServerDiscovery) (mode : SelectMode) (draw : Int)
      (res : String × Option String) (d' : MultiServerDiscovery) :
      Reachable d → d.Get mode draw = some (res, d') → Reachable d'
  | getAll (d : MultiServerDiscovery) : Reachable d → Reachable d.GetAll.2

/-- The first `k` results of consecutive calls `Get(RoundRobinSelect)`, with the
state after them; `none` if one of the calls panics. -/
def roundRobinRun : Nat → MultiServerDiscovery →
    Option (List (String × Option String) × MultiServerDiscovery)
  | 0, d => some ([], d)
  | k + 1, d =>
    match d.Get RoundRobinSelect 0 with
    | none => none
    | some (res, d') =>
      match roundRobinRun k d' with
      | none => none
      | some (rest, d'') => some (res :: rest, d'')

/-- PshawnRegistryDiscovery is a discovery for multiple servers with a register
center; it embeds a MultiServerDiscovery. -/
structure PshawnRegistryDiscovery extends MultiServerDiscovery where
  registry : String
  timeout : Int
  lastUpdate : Int
deriving DecidableEq, Repr

/-- The constant `defaultUpdateTimeout = time.Second * 10`, in nanoseconds. -/
def defaultUpdateTimeout : Int := 10 * 1000000000

/-- The zero `time.Time` (January 1, year 1, 00:00 UTC), in nanoseconds from the
Unix epoch. -/
def zeroTime : Int := -62135596800 * 1000000000

/-- The constructor of PshawnRegistryDiscovery: an empty list, the timeout (or
the default when it is 0), and a zero `lastUpdate`. -/
def NewPshawnRegistryDiscovery (registryAddr : String) (timeout : Int) (draw : Int) :
    PshawnRegistryDiscovery :=
  { toMultiServerDiscovery := NewMultiServerDiscovery [] draw
    registry := registryAddr
    timeout := if timeout = 0 then defaultUpdateTimeout else timeout
    lastUpdate := zeroTime }

/-- What `http.Get(d.registry)` returns: an error and no response, or a response,
of which the status code and the value of the header `X-Pshawnrpc-Servers` (the
empty string when the header is absent) are kept. -/
inductive HttpGetResult where
  | failed (err : String)
  | response (statusCode : Int) (servers : String)
deriving DecidableEq, Repr

/-- What a call of `Refresh` meets: the clock at the test of the age of the
cache, the result of the registry query should it be made, and the clock when
`lastUpdate` is set. -/
structure RefreshEnv where
  now : Int
  get : HttpGetResult
  done : Int

/-- The result of `Refresh`: the error returned, the number of registry queries
made, and the state after the call. -/
structure RefreshResult where
  err : Option String
  queries : Nat
  state : PshawnRegistryDiscovery

/-- The call `strings.Split(s, ",")` on the characters of `s`: the pieces
between the commas, one more than there are commas. -/
def splitComma : List Char → List (List Char)
  | [] => [[]]
  | c :: cs =>
    if c = ',' then [] :: splitComma cs
    else
      match splitComma cs with
      | [] => [[c]]
      | t :: ts => (c :: t) :: ts

/-- The call `strings.Split(s, ",")`. -/
def Split (s : String) : List String :=
  (splitComma s.data).map String.mk

/-- The function `unicode.IsSpace`: the white space characters of Unicode. -/
def isSpace (c : Char) : Bool :=
  let r := c.toNat
  (9 ≤ r && r ≤ 13) || r == 0x20 || r == 0x85 || r == 0xA0 || r == 0x1680 ||
    (0x2000 ≤ r && r ≤ 0x200a) || r == 0x2028 || r == 0x2029 || r == 0x202f ||
    r == 0x205f || r == 0x3000

/-- The call `strings.TrimSpace(s)`: `s` without its leading and trailing white
space. -/
def TrimSpace (s : String) : String :=
  String.mk ((s.data.dropWhile isSpace).rdropWhile isSpace)

/-- One iteration of the loop of `Refresh` over the pieces of the header. -/
def refreshStep (servers : List String) (server : String) : List String :=
  if TrimSpace server ≠ "" then servers ++ [TrimSpace server] else servers

/-- The list `Refresh` builds from the value of the response header: the
statements from `strings.Split` to the end of the loop. -/
def refreshServers (header : String) : List String :=
  (Split header).foldl refreshStep []

/-- Refresh of the registry-backed discovery. -/
def PshawnRegistryDiscovery.Refresh (d : PshawnRegistryDiscovery) (env : RefreshEnv) :
    RefreshResult :=
  if env.now < d.lastUpdate + d.timeout then { err := none, queries := 0, state := d }
  else
    match env.get with
    | HttpGetResult.failed err => { err := some err, queries := 1, state := d }
    | HttpGetResult.response _ header =>
      { err := none
        queries := 1
        state := { d with servers := refreshServers header, lastUpdate := env.done } }

/-- Update of the registry-backed discovery; `now` is the reading of
`time.Now()`. -/
def PshawnRegistryDiscovery.Update (d : PshawnRegistryDiscovery) (servers : List String)
    (now : Int) : Option String × PshawnRegistryDiscovery :=
  (none, { d with servers := servers, lastUpdate := now })

/-- Get of the registry-backed discovery: `Refresh`, then the embedded `Get`.
The result is the pair `(string, error)`, the number of registry queries and
the state after the call, or `none` when the call panics. -/
def PshawnRegistryDiscovery.Get (d : PshawnRegistryDiscovery) (mode : SelectMode)
    (env : RefreshEnv) (draw : Int) :
    Option ((String × Option String) × Nat × PshawnRegistryDiscovery) :=
  let r := d.Refresh env
  match r.err with
  | some err => some (("", some err), r.queries, r.state)
  | none =>
    (r.state.toMultiServerDiscovery.Get mode draw).map
      (fun p => (p.1, r.queries, { r.state with toMultiServerDiscovery := p.2 }))

/-- GetAll of the registry-backed discovery: `Refresh`, then the embedded
`GetAll`. -/
def PshawnRegistryDiscovery.GetAll (d : PshawnRegistryDiscovery) (env : RefreshEnv) :
    (List String × Option String) × Nat × PshawnRegistryDiscovery :=
  let r := d.Refresh env
  match r.err with
  | some err => (([], some err), r.queries, r.state)
  | none =>
    let p := r.state.toMultiServerDiscovery.GetAll
    (p.1, r.queries, { r.state with toMultiServerDiscovery := p.2 })

/-- A registry-backed discovery whose cache, filled at time 0 with the one
address `"a"`, is good for 10 nanoseconds. -/
def cachedDiscovery : PshawnRegistryDiscovery :=
  { servers := ["a"], index := 0, registry := "http://registry", timeout := 10, lastUpdate := 0 }

end XClient

/-! ## Registry: lemmas -/

namespace Registry

theorem lessChars_iff (a b : List Char) : lessChars a b = true ↔ a < b := by
  induction a generalizing b with
  | nil =>
    cases b with
    | nil => simp [lessChars]
    | cons b bs => simp [lessChars, List.nil_lt_cons]
  | cons a as ih =>
    cases b with
    | nil => simp [lessChars]
    | cons b bs =>
      simp only [lessChars]
      by_cases h : a < b
      · simp only [h, if_true, true_iff]
        exact List.Lex.rel h
      · by_cases h2 : a = b
        · subst h2
          simp only [h, if_false, if_true, ih]
          exact (List.Lex.cons_iff).symm
        · simp only [h, h2, if_false, Bool.false_eq_true, false_iff]
          intro hl
          cases hl with
          | cons hh => exact h2 rfl
          | rel hh => exact h hh

theorem stringLess_iff (a b : String) : stringLess a b = true ↔ a < b := by
  unfold stringLess
  rw [lessChars_iff, String.lt_iff_toList_lt]
  rfl

theorem stringLess_false_iff (a b : String) : stringLess b a = false ↔ a ≤ b := by
  rw [← not_lt, ← stringLess_iff]
  cases stringLess b a <;> simp

theorem insertionSort_congr {α : Type} (r s : α → α → Prop) [DecidableRel r] [DecidableRel s]
    (h : ∀ a b, r a b ↔ s a b) (l : List α) : l.insertionSort r = l.insertionSort s := by
  have hins : ∀ (a : α) (l : List α), l.orderedInsert r a = l.orderedInsert s a := by
    intro a l
    induction l with
    | nil => rfl
    | cons b l ih =>
      by_cases hab : r a b
      · have hs : s a b := (h a b).1 hab
        simp [List.orderedInsert, hab, hs]
      · have hs : ¬ s a b := fun hs => hab ((h a b).2 hs)
        simp [List.orderedInsert, hab, hs, ih]
  induction l with
  | nil => rfl
  | cons a l ih => simp [List.insertionSort, ih, hins]

theorem sortStrings_eq (l : List String) : sortStrings l = l.insertionSort (· ≤ ·) :=
  insertionSort_congr _ _ stringLess_false_iff l

theorem sortStrings_perm (l : List String) : (sortStrings l).Perm l := by
  rw [sortStrings_eq]
  exact List.perm_insertionSort _ l

theorem mem_sortStrings {a : String} {l : List String} : a ∈ sortStrings l ↔ a ∈ l :=
  (sortStrings_perm l).mem_iff

theorem sortStrings_sorted (l : List String) : (sortStrings l).Sorted (· ≤ ·) := by
  rw [sortStrings_eq]
  exact List.sorted_insertionSort _ l

/-- The loop of `aliveServers` collects the keys of the entries that pass the
test, in the order of the iteration, and erases the keys of the others. -/
theorem foldl_aliveStep (timeout : Int) (clock : String → Int)
    (l : List (Sigma (fun _ : String => ServerItem)))
    (acc : List String × AList (fun _ : String => ServerItem)) :
    l.foldl (aliveStep timeout clock) acc =
      (acc.1 ++ (l.filter (fun e => isAlive timeout (clock e.1) e.2)).map Sigma.fst,
       (l.filter (fun e => !isAlive timeout (clock e.1) e.2)).foldl
          (fun m e => m.erase e.1) acc.2) := by
  induction l generalizing acc with
  | nil => simp
  | cons e l ih =>
    rw [List.foldl_cons, ih]
    by_cases h : isAlive timeout (clock e.1) e.2 = true
    · simp [aliveStep, h]
    · simp [aliveStep, h]

theorem lookup_foldl_erase (l : List (Sigma (fun _ : String => ServerItem)))
    (m : AList (fun _ : String => ServerItem)) (a : String) :
    (l.foldl (fun m e => m.erase e.1) m).lookup a =
      if a ∈ l.map Sigma.fst then none else m.lookup a := by
  induction l generalizing m with
  | nil => simp
  | cons e l ih =>
    rw [List.foldl_cons, ih]
    by_cases h1 : a ∈ l.map Sigma.fst
    · simp [h1]
    · by_cases h2 : a = e.1
      · subst h2
        simp [h1, AList.lookup_erase]
      · simp [h1, h2, AList.lookup_erase_ne h2]

/-- The addresses `aliveServersAt` returns are the keys whose item passes the
test at the reading of the clock made for them. -/
theorem mem_aliveServersAt (r : PshawnRegistry) (clock : String → Int) (a : String) :
    a ∈ (r.aliveServersAt clock).1 ↔
      ∃ s, r.servers.lookup a = some s ∧ isAlive r.timeout (clock a) s = true := by
  unfold PshawnRegistry.aliveServersAt
  simp only [foldl_aliveStep, List.nil_append, mem_sortStrings, List.mem_map, List.mem_filter]
  constructor
  · rintro ⟨e, ⟨he, hp⟩, rfl⟩
    refine ⟨e.2, ?_, hp⟩
    exact (AList.mem_lookup_iff).2 he
  · rintro ⟨s, hs, hp⟩
    exact ⟨⟨a, s⟩, ⟨(AList.mem_lookup_iff).1 hs, hp⟩, rfl⟩

/-- The map after `aliveServersAt` holds the entries that pass the test, with
their items as they were. -/
theorem lookup_aliveServersAt (r : PshawnRegistry) (clock : String → Int) (a : String)
    (s : ServerItem) :
    (r.aliveServersAt clock).2.servers.lookup a = some s ↔
      r.servers.lookup a = some s ∧ isAlive r.timeout (clock a) s = true := by
  unfold PshawnRegistry.aliveServersAt
  simp only [foldl_aliveStep, lookup_foldl_erase]
  have key : a ∈ (r.servers.entries.filter
      (fun e => !isAlive r.timeout (clock e.1) e.2)).map Sigma.fst ↔
      ∃ s', r.servers.lookup a = some s' ∧ isAlive r.timeout (clock a) s' = false := by
    simp only [List.mem_map, List.mem_filter]
    constructor
    · rintro ⟨e, ⟨he, hp⟩, rfl⟩
      exact ⟨e.2, (AList.mem_lookup_iff).2 he, by simpa using hp⟩
    · rintro ⟨s', hs, hp⟩
      exact ⟨⟨a, s'⟩, ⟨(AList.mem_lookup_iff).1 hs, by simpa using hp⟩, rfl⟩
  constructor
  · intro h
    split at h
    · exact absurd h (by simp)
    · rename_i hne
      refine ⟨h, ?_⟩
      by_contra hp
      exact hne (key.2 ⟨s, h, by simpa using hp⟩)
  · rintro ⟨h, hp⟩
    rw [if_neg]
    · exact h
    · intro hmem
      obtain ⟨s', hs, hp2⟩ := key.1 hmem
      rw [h] at hs
      cases hs
      rw [hp] at hp2
      cases hp2

/-- The slice `aliveServersAt` returns has no duplicates. -/
theorem aliveServersAt_nodup (r : PshawnRegistry) (clock : String → Int) :
    (r.aliveServersAt clock).1.Nodup := by
  unfold PshawnRegistry.aliveServersAt
  simp only [foldl_aliveStep, List.nil_append]
  rw [(sortStrings_perm _).nodup_iff]
  have hk : (r.servers.entries.map Sigma.fst).Nodup := r.servers.keys_nodup
  exact (List.Sublist.map _ (List.filter_sublist _)).nodup hk

/-- The slice `aliveServersAt` returns is in strictly increasing order. -/
theorem aliveServersAt_sorted (r : PshawnRegistry) (clock : String → Int) :
    (r.aliveServersAt clock).1.Sorted (· < ·) := by
  refine List.Sorted.lt_of_le ?_ (aliveServersAt_nodup r clock)
  exact sortStrings_sorted _

/-- When every entry passes the test, `aliveServersAt` leaves the registry as it
is and returns its keys, sorted. -/
theorem aliveServersAt_of_all (r : PshawnRegistry) (clock : String → Int)
    (h : ∀ a s, r.servers.lookup a = some s → isAlive r.timeout (clock a) s = true) :
    r.aliveServersAt clock = (sortStrings r.servers.keys, r) := by
  have hall : ∀ e ∈ r.servers.entries, isAlive r.timeout (clock e.1) e.2 = true := by
    intro e he
    exact h e.1 e.2 ((AList.mem_lookup_iff).2 he)
  unfold PshawnRegistry.aliveServersAt
  simp only [foldl_aliveStep, List.nil_append]
  have h1 : r.servers.entries.filter (fun e => isAlive r.timeout (clock e.1) e.2)
      = r.servers.entries := List.filter_eq_self.2 hall
  have h2 : r.servers.entries.filter (fun e => !isAlive r.timeout (clock e.1) e.2) = [] := by
    rw [List.filter_eq_nil_iff]
    intro e he
    simp [hall e he]
  rw [h1, h2]
  rfl

end Registry

/-! ## Registry: the claims -/

namespace Registry

theorem lookup_replace (m : AList (fun _ : String => ServerItem)) (a : String) (b : ServerItem)
    (a' : String) :
    (m.replace a b).lookup a' = if a' = a then (m.lookup a).map (fun _ => b) else m.lookup a' := by
  obtain ⟨l, nd⟩ := m
  simp only [AList.replace, AList.lookup]
  clear nd
  induction l with
  | nil => simp [List.kreplace]
  | cons e l ih =>
    obtain ⟨k, v⟩ := e
    by_cases hak : a = k
    · subst hak
      have hk : List.kreplace a b (⟨a, v⟩ :: l) = ⟨a, b⟩ :: l := by
        unfold List.kreplace
        exact List.lookmap_cons_some _ _ (by simp)
      rw [hk]
      by_cases h : a' = a
      · subst h
        simp
      · have h1 : a' ≠ (⟨a, b⟩ : Sigma (fun _ : String => ServerItem)).1 := h
        have h2 : a' ≠ (⟨a, v⟩ : Sigma (fun _ : String => ServerItem)).1 := h
        rw [List.dlookup_cons_ne _ _ h1, List.dlookup_cons_ne _ _ h2, if_neg h]
    · have hk : List.kreplace a b (⟨k, v⟩ :: l) = ⟨k, v⟩ :: List.kreplace a b l := by
        unfold List.kreplace
        exact List.lookmap_cons_none _ _ (by simp [hak])
      rw [hk]
      by_cases h : a' = k
      · subst h
        have hne : ¬ a' = a := fun h => hak h.symm
        simp [hne]
      · have h1 : a' ≠ (⟨k, v⟩ : Sigma (fun _ : String => ServerItem)).1 := h
        have h2 : a ≠ (⟨k, v⟩ : Sigma (fun _ : String => ServerItem)).1 := hak
        rw [List.dlookup_cons_ne _ _ h1, List.dlookup_cons_ne _ _ h2, List.dlookup_cons_ne _ _ h1]
        exact ih

theorem isAlive_iff_of_pos (timeout now : Int) (s : ServerItem) (h : 0 < timeout) :
    isAlive timeout now s = true ↔ now < s.start + timeout := by
  have h0 : ¬ timeout = 0 := by omega
  simp [isAlive, h0]

theorem isAlive_iff (timeout now : Int) (s : ServerItem) :
    isAlive timeout now s = true ↔ (timeout = 0 ∨ now < s.start + timeout) := by
  simp [isAlive]

/-- C1. With a positive ttl, at every reading `now` of the clock `aliveServers`
returns exactly the addresses of the entries with `now < lastSeen + ttl`: an
address is returned if and only if it has such an entry, an entry with
`lastSeen + ttl <= now` (the boundary included) is left out, an entry with
`now < lastSeen + ttl` is returned, and no address is returned twice. -/
theorem aliveServers_exact (r : PshawnRegistry) (now : Int) (httl : 0 < r.timeout) :
    (∀ a, a ∈ (r.aliveServers now).1 ↔
        ∃ s, r.servers.lookup a = some s ∧ now < s.start + r.timeout) ∧
    (∀ a s, r.servers.lookup a = some s → s.start + r.timeout ≤ now →
        a ∉ (r.aliveServers now).1) ∧
    (∀ a s, r.servers.lookup a = some s → now < s.start + r.timeout →
        a ∈ (r.aliveServers now).1) ∧
    (r.aliveServers now).1.Nodup := by
  have hmem : ∀ a, a ∈ (r.aliveServers now).1 ↔
      ∃ s, r.servers.lookup a = some s ∧ now < s.start + r.timeout := by
    intro a
    unfold PshawnRegistry.aliveServers
    rw [mem_aliveServersAt]
    constructor
    · rintro ⟨s, hs, hp⟩
      exact ⟨s, hs, (isAlive_iff_of_pos _ _ _ httl).1 hp⟩
    · rintro ⟨s, hs, hp⟩
      exact ⟨s, hs, (isAlive_iff_of_pos _ _ _ httl).2 hp⟩
  refine ⟨hmem, ?_, ?_, aliveServersAt_nodup r _⟩
  · intro a s hs hexp hin
    obtain ⟨s', hs', hlt⟩ := (hmem a).1 hin
    rw [hs] at hs'
    cases hs'
    omega
  · intro a s hs hlt
    exact (hmem a).2 ⟨s, hs, hlt⟩

/-- C2. With a positive ttl, after `aliveServers` has run at `now` the map holds
exactly the entries that had not expired, each with its `lastSeen` unchanged,
and no expired entry; so a later call at `t2 >= now`, with no `putServer` in
between, returns only addresses that the call at `now` returned. -/
theorem aliveServers_evicts (r : PshawnRegistry) (now : Int) (httl : 0 < r.timeout) :
    (∀ a s, (r.aliveServers now).2.servers.lookup a = some s ↔
        (r.servers.lookup a = some s ∧ now < s.start + r.timeout)) ∧
    (∀ a s, (r.aliveServers now).2.servers.lookup a = some s →
        ¬ (s.start + r.timeout ≤ now)) ∧
    (r.aliveServers now).2.timeout = r.timeout ∧
    (∀ t2, now ≤ t2 → ∀ a, a ∈ ((r.aliveServers now).2.aliveServers t2).1 →
        a ∈ (r.aliveServers now).1) := by
  have hlook : ∀ a s, (r.aliveServers now).2.servers.lookup a = some s ↔
      (r.servers.lookup a = some s ∧ now < s.start + r.timeout) := by
    intro a s
    unfold PshawnRegistry.aliveServers
    rw [lookup_aliveServersAt, isAlive_iff_of_pos _ _ _ httl]
  refine ⟨hlook, ?_, rfl, ?_⟩
  · intro a s hs
    have := ((hlook a s).1 hs).2
    omega
  · intro t2 _ a ha
    unfold PshawnRegistry.aliveServers at ha
    rw [mem_aliveServersAt] at ha
    obtain ⟨s, hs, _⟩ := ha
    have h1 := (hlook a s).1 hs
    unfold PshawnRegistry.aliveServers
    rw [mem_aliveServersAt]
    exact ⟨s, h1.1, (isAlive_iff_of_pos _ _ _ httl).2 h1.2⟩

theorem putServer_of_none (r : PshawnRegistry) (a : String) (now : Int)
    (h : r.servers.lookup a = none) :
    r.putServer a now =
      { r with servers := r.servers.insert a { Addr := a, start := now } } := by
  unfold PshawnRegistry.putServer
  rw [h]

theorem putServer_of_some (r : PshawnRegistry) (a : String) (now : Int) (s : ServerItem)
    (h : r.servers.lookup a = some s) :
    r.putServer a now =
      { r with servers := r.servers.replace a { s with start := now } } := by
  unfold PshawnRegistry.putServer
  rw [h]

theorem entries_length_eq_keys_length (m : AList (fun _ : String => ServerItem)) :
    m.entries.length = m.keys.length := by
  simp [AList.keys, List.keys]

/-- C8. For every registry, address `a` and time `now`, `putServer` gives a
registry whose keys are the old keys and `a`, whose number of entries is the
old one when `a` was present and one more otherwise, with no key twice, whose
entry for `a` has `lastSeen = now`, and whose entries for the other addresses
and whose ttl are unchanged; being a total function it cannot fail. -/
theorem putServer_frame (r : PshawnRegistry) (a : String) (now : Int) :
    (∀ b, b ∈ (r.putServer a now).servers.keys ↔ (b = a ∨ b ∈ r.servers.keys)) ∧
    ((r.putServer a now).servers.entries.length =
        if a ∈ r.servers.keys then r.servers.entries.length
        else r.servers.entries.length + 1) ∧
    (r.putServer a now).servers.keys.Nodup ∧
    (∃ s, (r.putServer a now).servers.lookup a = some s ∧ s.start = now) ∧
    (∀ b, b ≠ a → (r.putServer a now).servers.lookup b = r.servers.lookup b) ∧
    (r.putServer a now).timeout = r.timeout := by
  cases h : r.servers.lookup a with
  | none =>
    have hnot : a ∉ r.servers := AList.lookup_eq_none.1 h
    have hnotk : a ∉ r.servers.keys := fun hk => hnot (AList.mem_keys.2 hk)
    rw [putServer_of_none r a now h]
    refine ⟨?_, ?_, AList.keys_nodup _, ⟨_, AList.lookup_insert _, rfl⟩, ?_, rfl⟩
    · intro b
      rw [← AList.mem_keys, ← AList.mem_keys]
      exact AList.mem_insert _
    · rw [if_neg hnotk]
      show (r.servers.insert a _).entries.length = _
      rw [AList.insert_entries_of_neg hnot]
      rfl
    · intro b hb
      exact AList.lookup_insert_ne hb
  | some s =>
    have hin : a ∈ r.servers := by
      rw [← AList.lookup_isSome, h]
      rfl
    have hink : a ∈ r.servers.keys := AList.mem_keys.1 hin
    rw [putServer_of_some r a now s h]
    refine ⟨?_, ?_, AList.keys_nodup _, ⟨{ s with start := now }, ?_, rfl⟩, ?_, rfl⟩
    · intro b
      show b ∈ (r.servers.replace a _).keys ↔ _
      rw [AList.keys_replace]
      constructor
      · exact fun hb => Or.inr hb
      · rintro (rfl | hb)
        · exact hink
        · exact hb
    · rw [if_pos hink]
      show (r.servers.replace a _).entries.length = _
      rw [entries_length_eq_keys_length, AList.keys_replace, ← entries_length_eq_keys_length]
    · show (r.servers.replace a _).lookup a = _
      rw [lookup_replace, if_pos rfl, h]
      rfl
    · intro b hb
      show (r.servers.replace a _).lookup b = _
      rw [lookup_replace, if_neg hb]

theorem sorted_lt_ext {l₁ l₂ : List String} (h₁ : l₁.Sorted (· < ·)) (h₂ : l₂.Sorted (· < ·))
    (h : ∀ a, a ∈ l₁ ↔ a ∈ l₂) : l₁ = l₂ := by
  have hp : l₁.Perm l₂ := (List.perm_ext_iff_of_nodup h₁.nodup h₂.nodup).2 h
  exact List.eq_of_perm_of_sorted hp h₁ h₂

/-- C9. At every state and time `aliveServers` returns its addresses, those of
the entries that have not expired (all of them when ttl = 0) and no other, in
strictly increasing lexicographic order, hence without duplicates; and when,
at the time `now2` of a second call, no entry left by the first call has
expired (and none was announced in between), the second call returns the same
sequence and leaves the entry map as the first call left it. -/
theorem aliveServers_sorted_stable (r : PshawnRegistry) (now now2 : Int) :
    (∀ a, a ∈ (r.aliveServers now).1 ↔
      ∃ s, r.servers.lookup a = some s ∧ (r.timeout = 0 ∨ now < s.start + r.timeout)) ∧
    (r.aliveServers now).1.Sorted (· < ·) ∧
    (r.aliveServers now).1.Nodup ∧
    ((∀ a s, (r.aliveServers now).2.servers.lookup a = some s →
          (r.timeout = 0 ∨ now2 < s.start + r.timeout)) →
      ((r.aliveServers now).2.aliveServers now2).1 = (r.aliveServers now).1 ∧
      ((r.aliveServers now).2.aliveServers now2).2 = (r.aliveServers now).2) := by
  have hmem : ∀ a, a ∈ (r.aliveServers now).1 ↔
      ∃ s, r.servers.lookup a = some s ∧ (r.timeout = 0 ∨ now < s.start + r.timeout) := by
    intro a
    unfold PshawnRegistry.aliveServers
    rw [mem_aliveServersAt]
    constructor
    · rintro ⟨s, hs, hp⟩
      exact ⟨s, hs, (isAlive_iff _ _ _).1 hp⟩
    · rintro ⟨s, hs, hp⟩
      exact ⟨s, hs, (isAlive_iff _ _ _).2 hp⟩
  refine ⟨hmem, aliveServersAt_sorted r _, aliveServersAt_nodup r _, ?_⟩
  intro hno
  have hall : ∀ a s, (r.aliveServers now).2.servers.lookup a = some s →
      isAlive (r.aliveServers now).2.timeout now2 s = true := by
    intro a s hs
    exact (isAlive_iff _ _ _).2 (hno a s hs)
  have heq : (r.aliveServers now).2.aliveServers now2 =
      (sortStrings (r.aliveServers now).2.servers.keys, (r.aliveServers now).2) :=
    aliveServersAt_of_all _ _ hall
  refine ⟨?_, by rw [heq]⟩
  apply sorted_lt_ext (aliveServersAt_sorted _ _) (aliveServersAt_sorted r _)
  intro a
  show a ∈ ((r.aliveServers now).2.aliveServers now2).1 ↔ a ∈ (r.aliveServers now).1
  rw [heq]
  simp only [mem_sortStrings]
  unfold PshawnRegistry.aliveServers
  rw [mem_aliveServersAt, ← AList.mem_keys, ← AList.lookup_isSome, Option.isSome_iff_exists]
  constructor
  · rintro ⟨s, hs⟩
    exact ⟨s, (lookup_aliveServersAt _ _ _ _).1 hs⟩
  · rintro ⟨s, hs⟩
    exact ⟨s, (lookup_aliveServersAt _ _ _ _).2 hs⟩

/-- C10. With ttl = 0, at every reading of the clock, however far past any
`lastSeen`, `aliveServers` returns the addresses of all the entries (the keys
of the map, sorted) and evicts none: the registry is unchanged. -/
theorem aliveServers_ttl_zero (r : PshawnRegistry) (now : Int) (h0 : r.timeout = 0) :
    (∀ a, a ∈ (r.aliveServers now).1 ↔ a ∈ r.servers.keys) ∧
    (r.aliveServers now).1 = sortStrings r.servers.keys ∧
    (r.aliveServers now).1.length = r.servers.entries.length ∧
    (r.aliveServers now).2 = r := by
  have hall : ∀ a s, r.servers.lookup a = some s → isAlive r.timeout now s = true := by
    intro a s _
    exact (isAlive_iff _ _ _).2 (Or.inl h0)
  have heq : r.aliveServers now = (sortStrings r.servers.keys, r) :=
    aliveServersAt_of_all r _ hall
  rw [heq]
  refine ⟨fun a => mem_sortStrings, rfl, ?_, rfl⟩
  rw [(sortStrings_perm _).length_eq, entries_length_eq_keys_length]

/-- Witness of C1: in `mixedRegistry` at time 250 the entry announced at 0 has
expired (0 + 200 <= 250) and the one announced at 100 has not. -/
theorem aliveServers_exact_witness :
    0 < mixedRegistry.timeout ∧
    (mixedRegistry.aliveServers 250).1 = ["S2"] ∧
    "S1" ∉ (mixedRegistry.aliveServers 250).1 ∧
    "S2" ∈ (mixedRegistry.aliveServers 250).1 :=
  ⟨by decide, by decide,
    (aliveServers_exact mixedRegistry 250 (by decide)).2.1 "S1" ⟨"S1", 0⟩
      (by decide) (by decide),
    (aliveServers_exact mixedRegistry 250 (by decide)).2.2.1 "S2" ⟨"S2", 100⟩
      (by decide) (by decide)⟩

/-- Witness of C2, the end-to-end scenario: with ttl = 200ms and `"S1"`, `"S2"`
announced, a query gives `["S1", "S2"]`; a query 250ms later gives `[]` and
leaves no entry in the map. -/
theorem aliveServers_evicts_witness :
    0 < scenario.timeout ∧
    (scenario.aliveServers 0).1 = ["S1", "S2"] ∧
    ((scenario.aliveServers 0).2.aliveServers 250000000).1 = [] ∧
    ((scenario.aliveServers 0).2.aliveServers 250000000).2.servers.entries = [] ∧
    (∀ a s, ((scenario.aliveServers 0).2.aliveServers 250000000).2.servers.lookup a = some s →
      ¬ (s.start + (scenario.aliveServers 0).2.timeout ≤ 250000000)) :=
  ⟨by decide, by decide, by decide, by decide,
    (aliveServers_evicts (scenario.aliveServers 0).2 250000000 (by decide)).2.1⟩

/-- Witness of C9: in the scenario the call at time 0 returns `["S1", "S2"]`,
both announced addresses, in order; no entry it leaves has expired at time
100, and the call at 100 repeats the result of the call at 0. -/
theorem aliveServers_sorted_stable_witness :
    (scenario.aliveServers 0).1 = ["S1", "S2"] ∧
    "S1" ∈ (scenario.aliveServers 0).1 ∧
    (∀ a s, (scenario.aliveServers 0).2.servers.lookup a = some s →
      (scenario.timeout = 0 ∨ 100 < s.start + scenario.timeout)) ∧
    ((scenario.aliveServers 0).2.aliveServers 100).1 = (scenario.aliveServers 0).1 ∧
    ((scenario.aliveServers 0).2.aliveServers 100).2 = (scenario.aliveServers 0).2 :=
  have hno : ∀ a s, (scenario.aliveServers 0).2.servers.lookup a = some s →
      (scenario.timeout = 0 ∨ 100 < s.start + scenario.timeout) := by
    intro a s h
    have hmem := (AList.mem_lookup_iff).1 h
    have he : (scenario.aliveServers 0).2.servers.entries
        = [⟨"S2", ⟨"S2", 0⟩⟩, ⟨"S1", ⟨"S1", 0⟩⟩] := by decide
    rw [he] at hmem
    right
    simp only [List.mem_cons, Sigma.mk.inj_iff, heq_eq_eq, List.mem_singleton,
      List.not_mem_nil, or_false] at hmem
    rcases hmem with ⟨_, rfl⟩ | ⟨_, rfl⟩ <;> decide
  ⟨by decide,
    ((aliveServers_sorted_stable scenario 0 100).1 "S1").2
      ⟨⟨"S1", 0⟩, by decide, Or.inr (by decide)⟩,
    hno, (aliveServers_sorted_stable scenario 0 100).2.2.2 hno⟩

/-- Witness of C10: with ttl = 0 both entries are returned a thousand million
seconds after their announce, and the registry is unchanged. -/
theorem aliveServers_ttl_zero_witness :
    foreverRegistry.timeout = 0 ∧
    (foreverRegistry.aliveServers 1000000000000000000).1 = ["S1", "S2"] ∧
    (foreverRegistry.aliveServers 1000000000000000000).2 = foreverRegistry :=
  ⟨by decide, by decide,
    (aliveServers_ttl_zero foreverRegistry 1000000000000000000 (by decide)).2.2.2⟩

end Registry

/-! ## Discovery: lemmas -/

namespace XClient

theorem wrapInt_eq (x : Int) (h0 : -(2 ^ 63) ≤ x) (h1 : x < 2 ^ 63) : wrapInt x = x := by
  unfold wrapInt
  omega

theorem sliceAt_natCast (s : List String) (i : Nat) : sliceAt s (i : Int) = s[i]? := by
  unfold sliceAt
  have h : ¬ ((i : Int) < 0) := by omega
  rw [if_neg h, Int.toNat_natCast]

/-- One call `Get(RoundRobinSelect)` on a non-empty list with the cursor at the
natural number `c`: it returns `servers[c mod n]` and moves the cursor to
`(c + 1) mod n`. -/
theorem Get_roundRobin_nat (servers : List String) (c : Nat) (draw : Int)
    (hne : servers ≠ []) (hc : (c : Int) < maxInt) :
    (MultiServerDiscovery.mk servers c).Get RoundRobinSelect draw =
      some ((servers.getD (c % servers.length) "", none),
        MultiServerDiscovery.mk servers ((c + 1) % servers.length : Nat)) ∧
    servers[c % servers.length]? = some (servers.getD (c % servers.length) "") := by
  have hpos : 0 < servers.length := List.length_pos.2 hne
  have hlt : c % servers.length < servers.length := Nat.mod_lt _ hpos
  have hget : servers[c % servers.length]? = some (servers.getD (c % servers.length) "") := by
    rw [List.getD_eq_getElem?_getD, List.getElem?_eq_getElem hlt]
    rfl
  refine ⟨?_, hget⟩
  have hn0 : ¬ ((servers.length : Int) = 0) := by omega
  have hmode : ¬ (RoundRobinSelect = RandomSelect) := by decide
  have hw : wrapInt ((c : Int) + 1) = ((c + 1 : Nat) : Int) := by
    rw [wrapInt_eq]
    · push_cast
      rfl
    · omega
    · unfold maxInt at hc
      omega
  unfold MultiServerDiscovery.Get
  simp only [hn0, if_false, hmode, if_true, hw]
  rw [← Int.ofNat_tmod, ← Int.ofNat_tmod, sliceAt_natCast, hget]
  rfl

/-- The results of `k` consecutive calls `Get(RoundRobinSelect)` from the cursor
`c`: the `j`-th is `servers[(c + j) mod n]`, none fails, and the list is kept. -/
theorem roundRobinRun_nat (servers : List String) (hne : servers ≠ [])
    (hlen : (servers.length : Int) ≤ maxInt) (k : Nat) :
    ∀ c : Nat, (c : Int) < maxInt →
      ∃ c' : Nat, (c' : Int) < maxInt ∧
        roundRobinRun k (MultiServerDiscovery.mk servers c) =
          some ((List.range k).map
              (fun j => (servers.getD ((c + j) % servers.length) "", (none : Option String))),
            MultiServerDiscovery.mk servers c') := by
  have hpos : 0 < servers.length := List.length_pos.2 hne
  induction k with
  | zero =>
    intro c hc
    exact ⟨c, hc, rfl⟩
  | succ k ih =>
    intro c hc
    have hstep := (Get_roundRobin_nat servers c 0 hne hc).1
    have hlt : (c + 1) % servers.length < servers.length := Nat.mod_lt _ hpos
    have hc1 : (((c + 1) % servers.length : Nat) : Int) < maxInt := by omega
    obtain ⟨c', hc', hrun⟩ := ih ((c + 1) % servers.length) hc1
    refine ⟨c', hc', ?_⟩
    simp only [roundRobinRun, hstep, hrun]
    rw [List.range_succ_eq_map]
    simp only [List.map_cons, List.map_map, Nat.add_zero]
    congr 3
    apply List.map_congr_left
    intro j _
    simp only [Function.comp]
    have hidx : ((c + 1) % servers.length + j) % servers.length
        = (c + (j + 1)) % servers.length := by
      rw [Nat.add_mod, Nat.mod_mod, ← Nat.add_mod]
      congr 1
      omega
    rw [hidx]

/-- Every state a MultiServerDiscovery goes through has a cursor in
`[0, maxInt)`, so that `index + 1` does not overflow, and a list of at most
`maxInt` elements. -/
theorem Reachable.bounds {d : MultiServerDiscovery} (h : Reachable d) :
    0 ≤ d.index ∧ d.index < maxInt ∧ (d.servers.length : Int) ≤ maxInt := by
  induction h with
  | new servers draw hlen h0 h1 =>
    refine ⟨h0, ?_, hlen⟩
    show draw < maxInt
    unfold MaxInt32 at h1
    unfold maxInt
    omega
  | update d servers _ hlen ih => exact ⟨ih.1, ih.2.1, hlen⟩
  | get d mode draw res d' _ hget ih =>
    obtain ⟨i0, i1, i2⟩ := ih
    unfold MultiServerDiscovery.Get at hget
    simp only at hget
    split at hget
    · cases hget
      exact ⟨i0, i1, i2⟩
    · rename_i hn0
      split at hget
      · cases hs : sliceAt d.servers draw with
        | none => rw [hs] at hget; cases hget
        | some server =>
          rw [hs] at hget
          cases hget
          exact ⟨i0, i1, i2⟩
      · split at hget
        · cases hs : sliceAt d.servers (Int.tmod d.index d.servers.length) with
          | none => rw [hs] at hget; cases hget
          | some server =>
            rw [hs] at hget
            cases hget
            have hw : wrapInt (d.index + 1) = d.index + 1 := by
              apply wrapInt_eq
              · omega
              · unfold maxInt at i1
                omega
            have hnpos : (0 : Int) < d.servers.length := by omega
            refine ⟨?_, ?_, i2⟩
            · show 0 ≤ Int.tmod (wrapInt (d.index + 1)) d.servers.length
              rw [hw]
              exact Int.tmod_nonneg _ (by omega)
            · show Int.tmod (wrapInt (d.index + 1)) d.servers.length < maxInt
              have := Int.tmod_lt_of_pos (wrapInt (d.index + 1)) hnpos
              omega
        · cases hget
          exact ⟨i0, i1, i2⟩
  | getAll d _ ih => exact ih

end XClient

/-! ## Discovery: the claims -/

namespace XClient

theorem getElem?_mod_length (servers : List String) (hne : servers ≠ []) (i : Nat) :
    servers[i % servers.length]? = some (servers.getD (i % servers.length) "") := by
  have hlt : i % servers.length < servers.length := Nat.mod_lt _ (List.length_pos.2 hne)
  rw [List.getD_eq_getElem?_getD, List.getElem?_eq_getElem hlt]
  rfl

theorem toNat_emod_natCast (m n : Nat) : ((m : Int) % (n : Int)).toNat = m % n := by
  rw [← Int.natCast_mod, Int.toNat_natCast]

/-- C3. On a non-empty list of `n` servers that no `Update` changes, from every
initial cursor `c` with `0 <= c < maxInt` (`NewMultiServerDiscovery` draws it
from `[0, MaxInt32 - 1)`), `n` consecutive calls `Get(RoundRobinSelect)` all
succeed, the `k`-th (`k = 0..n-1`) returns `servers[(c + k) mod n]`, and the
addresses returned are the list rotated by `c mod n`: every index is visited
exactly once. -/
theorem roundRobin_rotation (servers : List String) (c : Int) (hne : servers ≠ [])
    (hlen : (servers.length : Int) ≤ maxInt) (hc0 : 0 ≤ c) (hc : c < maxInt) :
    ∃ results d',
      roundRobinRun servers.length (NewMultiServerDiscovery servers c) = some (results, d') ∧
      results.length = servers.length ∧
      d'.servers = servers ∧
      (∀ k, k < servers.length →
        ∃ s, servers[((c + k) % servers.length).toNat]? = some s ∧
          results[k]? = some (s, none)) ∧
      results.map Prod.fst = servers.rotate (c % servers.length).toNat ∧
      (results.map Prod.fst).Perm servers := by
  lift c to ℕ using hc0 with m
  obtain ⟨c', _, hrun⟩ := roundRobinRun_nat servers hne hlen servers.length m hc
  have hrot : ((List.range servers.length).map
      (fun j => (servers.getD ((m + j) % servers.length) "", (none : Option String)))).map
        Prod.fst = servers.rotate ((m : Int) % servers.length).toNat := by
    have hcast : ((m : Int) % servers.length).toNat = m % servers.length :=
      toNat_emod_natCast _ _
    rw [hcast]
    apply List.ext_getElem?
    intro k
    by_cases hk : k < servers.length
    · rw [List.getElem?_rotate hk]
      simp only [List.map_map, List.getElem?_map, List.getElem?_range hk, Option.map_some',
        Function.comp]
      have hidx : (k + m % servers.length) % servers.length = (m + k) % servers.length := by
        rw [Nat.add_mod, Nat.mod_mod, ← Nat.add_mod, Nat.add_comm]
      rw [hidx, getElem?_mod_length servers hne]
    · have h1 : servers.length ≤ k := Nat.le_of_not_lt hk
      rw [List.getElem?_eq_none, List.getElem?_eq_none]
      · simpa using h1
      · simpa using h1
  refine ⟨_, _, hrun, by simp, rfl, ?_, hrot, ?_⟩
  · intro k hk
    refine ⟨servers.getD ((m + k) % servers.length) "", ?_, ?_⟩
    · have hcast : (((m : Int) + (k : Int)) % servers.length).toNat = (m + k) % servers.length := by
        rw [← Int.natCast_add]
        exact toNat_emod_natCast _ _
      rw [hcast]
      exact getElem?_mod_length servers hne _
    · simp [List.getElem?_map, List.getElem?_range hk]
  · rw [hrot]
    exact List.rotate_perm _ _

/-- C4. In every state reached from `NewMultiServerDiscovery` by `Update`, `Get`
and `GetAll` (the cursor is then never negative), when `Update` replaces the
list of size `n` by a list of size `m` with `1 <= m < n` while the cursor is
`>= m`, `Update` succeeds and the next `Get(RoundRobinSelect)` neither fails
nor panics: it returns the element of the new list at index `cursor mod m` and
leaves the cursor in `[0, m)`. -/
theorem roundRobin_after_shrink (d : MultiServerDiscovery) (s : List String) (draw : Int)
    (hr : Reachable d) (hm : 1 ≤ s.length) (hmn : s.length < d.servers.length)
    (hcur : (s.length : Int) ≤ d.index) :
    (d.Update s).1 = none ∧
    ∃ server d',
      (d.Update s).2.Get RoundRobinSelect draw = some ((server, none), d') ∧
      s[(d.index % s.length).toNat]? = some server ∧
      server ∈ s ∧
      0 ≤ d'.index ∧ d'.index < s.length ∧ d'.servers = s := by
  obtain ⟨i0, i1, _⟩ := hr.bounds
  obtain ⟨servers, index⟩ := d
  simp only at i0 i1 hcur hmn
  lift index to ℕ using i0 with c
  have hne : s ≠ [] := List.length_pos.1 (by omega)
  have hpos : 0 < s.length := by omega
  obtain ⟨hget, hidx⟩ := Get_roundRobin_nat s c draw hne i1
  have hcast : ((c : Int) % s.length).toNat = c % s.length := toNat_emod_natCast _ _
  refine ⟨rfl, _, _, hget, ?_, ?_, ?_, ?_, rfl⟩
  · simp only [hcast]
    exact hidx
  · exact List.getElem?_mem hidx
  · show (0 : Int) ≤ ((c + 1) % s.length : Nat)
    omega
  · show (((c + 1) % s.length : Nat) : Int) < s.length
    have := Nat.mod_lt (c + 1) hpos
    omega

/-- Witness of C3: three servers and the cursor at 7: the three calls return
the list rotated by 7 mod 3 = 1. -/
theorem roundRobin_rotation_witness :
    ["a", "b", "c"] ≠ [] ∧ ((["a", "b", "c"].length : Nat) : Int) ≤ maxInt ∧
    (0 : Int) ≤ 7 ∧ (7 : Int) < maxInt ∧
    ∃ results d',
      roundRobinRun 3 (NewMultiServerDiscovery ["a", "b", "c"] 7) = some (results, d') ∧
      results.map Prod.fst = ["b", "c", "a"] :=
  ⟨by decide, by decide, by decide, by decide,
    match roundRobin_rotation ["a", "b", "c"] 7 (by decide) (by decide) (by decide)
      (by decide) with
    | ⟨results, d', h1, _, _, _, h5, _⟩ => ⟨results, d', h1, h5⟩⟩

/-- Witness of C4: a discovery made with three servers and the cursor at 5 is
updated to two servers; the next round-robin call returns the server at index
5 mod 2 = 1. -/
theorem roundRobin_after_shrink_witness :
    Reachable (NewMultiServerDiscovery ["a", "b", "c"] 5) ∧
    1 ≤ ["x", "y"].length ∧
    ["x", "y"].length < (NewMultiServerDiscovery ["a", "b", "c"] 5).servers.length ∧
    ((["x", "y"].length : Nat) : Int) ≤ (NewMultiServerDiscovery ["a", "b", "c"] 5).index ∧
    ∃ server d',
      ((NewMultiServerDiscovery ["a", "b", "c"] 5).Update ["x", "y"]).2.Get RoundRobinSelect 0
        = some ((server, none), d') ∧
      ["x", "y"][(((NewMultiServerDiscovery ["a", "b", "c"] 5).index
        % (["x", "y"].length : Nat)).toNat)]? = some server ∧
      server ∈ ["x", "y"] ∧
      0 ≤ d'.index ∧ d'.index < (["x", "y"].length : Nat) ∧ d'.servers = ["x", "y"] :=
  have hr : Reachable (NewMultiServerDiscovery ["a", "b", "c"] 5) :=
    Reachable.new ["a", "b", "c"] 5 (by decide) (by decide) (by decide)
  ⟨hr, by decide, by decide, by decide,
    (roundRobin_after_shrink (NewMultiServerDiscovery ["a", "b", "c"] 5) ["x", "y"] 0 hr
      (by decide) (by decide) (by decide)).2⟩

end XClient

namespace XClient

theorem foldl_refreshStep (l : List String) (acc : List String) :
    l.foldl refreshStep acc = acc ++ (l.map TrimSpace).filter (fun x => x ≠ "") := by
  induction l generalizing acc with
  | nil => simp
  | cons t l ih =>
    rw [List.foldl_cons, ih]
    by_cases h : TrimSpace t = ""
    · simp [refreshStep, h]
    · simp [refreshStep, h]

theorem splitComma_ne_nil (l : List Char) : splitComma l ≠ [] := by
  cases l with
  | nil => simp [splitComma]
  | cons c cs =>
    unfold splitComma
    split
    · simp
    · split <;> simp

theorem intercalate_splitComma (l : List Char) : List.intercalate [','] (splitComma l) = l := by
  induction l with
  | nil => rfl
  | cons c cs ih =>
    unfold splitComma
    split
    · rename_i hc
      obtain ⟨t, ts, hts⟩ := List.exists_cons_of_ne_nil (splitComma_ne_nil cs)
      rw [hts] at ih ⊢
      rw [← ih, hc]
      simp [List.intercalate, List.intersperse]
    · split
      · rename_i hnil
        exact absurd hnil (splitComma_ne_nil cs)
      · rename_i t ts hts
        rw [hts] at ih
        rw [← ih]
        cases ts <;> simp [List.intercalate, List.intersperse]

theorem not_mem_splitComma (l : List Char) : ∀ t ∈ splitComma l, ',' ∉ t := by
  induction l with
  | nil => simp [splitComma]
  | cons c cs ih =>
    unfold splitComma
    split
    · intro t ht
      rcases List.mem_cons.1 ht with rfl | ht
      · simp
      · exact ih t ht
    · rename_i hc
      split
      · intro t ht
        rcases List.mem_cons.1 ht with rfl | ht
        · simpa using fun h => hc h.symm
        · simp at ht
      · rename_i t ts hts
        rw [hts] at ih
        intro x hx
        rcases List.mem_cons.1 hx with rfl | hx
        · intro hmem
          rcases List.mem_cons.1 hmem with h | h
          · exact hc h.symm
          · exact ih t (List.mem_cons_self _ _) h
        · exact ih x (List.mem_cons_of_mem _ hx)

theorem dropWhile_head_not (p : Char → Bool) (l : List Char) (c : Char) (rest : List Char)
    (h : l.dropWhile p = c :: rest) : p c = false := by
  induction l with
  | nil => simp at h
  | cons a l ih =>
    by_cases ha : p a = true
    · rw [List.dropWhile_cons_of_pos ha] at h
      exact ih h
    · rw [List.dropWhile_cons_of_neg ha] at h
      cases h
      simpa using ha

/-- A string trimmed by `TrimSpace` neither starts nor ends with white space. -/
theorem TrimSpace_ends (t : String) :
    (∀ c, (TrimSpace t).data.head? = some c → isSpace c = false) ∧
    (∀ c, (TrimSpace t).data.getLast? = some c → isSpace c = false) := by
  constructor
  · intro c hc
    show isSpace c = false
    have hx : (TrimSpace t).data = (t.data.dropWhile isSpace).rdropWhile isSpace := rfl
    rw [hx] at hc
    obtain ⟨suffix, hsuf⟩ := List.rdropWhile_prefix isSpace (t.data.dropWhile isSpace)
    cases hrd : (t.data.dropWhile isSpace).rdropWhile isSpace with
    | nil => rw [hrd] at hc; simp at hc
    | cons a rest =>
      rw [hrd] at hc hsuf
      simp only [List.head?_cons, Option.some.injEq] at hc
      subst hc
      exact dropWhile_head_not isSpace t.data a (rest ++ suffix) (by rw [← hsuf]; rfl)
  · intro c hc
    have hx : (TrimSpace t).data = (t.data.dropWhile isSpace).rdropWhile isSpace := rfl
    rw [hx] at hc
    have hne : (t.data.dropWhile isSpace).rdropWhile isSpace ≠ [] := by
      intro h
      rw [h] at hc
      simp at hc
    have hlast := List.rdropWhile_last_not isSpace (t.data.dropWhile isSpace) hne
    rw [List.getLast?_eq_getLast _ hne] at hc
    simp only [Option.some.injEq] at hc
    rw [← hc]
    simpa using hlast

/-- C5 (amended). When the cache is stale and the registry query ends in a
transport error, `Refresh`, `Get` and `GetAll` return that error to the caller
and the state (server list, cursor and `lastUpdate`) is exactly what it was.
The status code of a response is not looked at: a response of any status is
parsed, replaces the list and sets `lastUpdate`, and `Refresh` returns no
error. -/
theorem refresh_failure_keeps_cache (d : PshawnRegistryDiscovery) (env : RefreshEnv)
    (hstale : d.lastUpdate + d.timeout ≤ env.now) :
    (∀ err, env.get = HttpGetResult.failed err →
      (d.Refresh env).err = some err ∧ (d.Refresh env).state = d ∧
      (∀ mode draw, d.Get mode env draw = some (("", some err), 1, d)) ∧
      d.GetAll env = (([], some err), 1, d)) ∧
    (∀ status header, env.get = HttpGetResult.response status header →
      (d.Refresh env).err = none ∧
      (d.Refresh env).state =
        { d with servers := refreshServers header, lastUpdate := env.done }) := by
  have hnot : ¬ (env.now < d.lastUpdate + d.timeout) := by omega
  constructor
  · intro err hget
    have hR : d.Refresh env = { err := some err, queries := 1, state := d } := by
      unfold PshawnRegistryDiscovery.Refresh
      rw [if_neg hnot, hget]
    refine ⟨by rw [hR], by rw [hR], ?_, ?_⟩
    · intro mode draw
      unfold PshawnRegistryDiscovery.Get
      simp only [hR]
    · unfold PshawnRegistryDiscovery.GetAll
      simp only [hR]
  · intro status header hget
    have hR : d.Refresh env =
        { err := none
          queries := 1
          state := { d with servers := refreshServers header, lastUpdate := env.done } } := by
      unfold PshawnRegistryDiscovery.Refresh
      rw [if_neg hnot, hget]
    exact ⟨by rw [hR], by rw [hR]⟩

/-- C6 (amended). A `Refresh` made when `now >= lastUpdate + refreshTimeout`
issues exactly one query; a `Refresh` made when `now < lastUpdate +
refreshTimeout` issues none, returns no error and leaves the state unchanged;
and two consecutive `Refresh` calls made at `t1 <= t2 < t1 + refreshTimeout`
issue at most one query in total when the first call returns no error (the
clock not running backwards during the first call). -/
theorem refresh_throttle (d : PshawnRegistryDiscovery) (env1 env2 : RefreshEnv) :
    (env1.now ≤ env1.done → env1.now ≤ env2.now → env2.now < env1.now + d.timeout →
      (d.Refresh env1).err = none →
      (d.Refresh env1).queries + ((d.Refresh env1).state.Refresh env2).queries ≤ 1) ∧
    (d.lastUpdate + d.timeout ≤ env1.now → (d.Refresh env1).queries = 1) ∧
    (env1.now < d.lastUpdate + d.timeout →
      (d.Refresh env1).queries = 0 ∧ (d.Refresh env1).err = none ∧
      (d.Refresh env1).state = d) := by
  refine ⟨?_, ?_, ?_⟩
  · intro hdone h12 hlt herr
    by_cases hfresh : env1.now < d.lastUpdate + d.timeout
    · have hR : d.Refresh env1 = { err := none, queries := 0, state := d } := by
        unfold PshawnRegistryDiscovery.Refresh
        rw [if_pos hfresh]
      rw [hR]
      show 0 + (d.Refresh env2).queries ≤ 1
      unfold PshawnRegistryDiscovery.Refresh
      split
      · simp
      · split <;> simp
    · cases hget : env1.get with
      | failed err =>
        have hR : d.Refresh env1 = { err := some err, queries := 1, state := d } := by
          unfold PshawnRegistryDiscovery.Refresh
          rw [if_neg hfresh, hget]
        rw [hR] at herr
        cases herr
      | response status header =>
        have hR : d.Refresh env1 =
            { err := none
              queries := 1
              state := { d with servers := refreshServers header, lastUpdate := env1.done } } := by
          unfold PshawnRegistryDiscovery.Refresh
          rw [if_neg hfresh, hget]
        rw [hR]
        have hfresh2 : env2.now < env1.done + d.timeout := by omega
        show 1 + (PshawnRegistryDiscovery.Refresh _ env2).queries ≤ 1
        unfold PshawnRegistryDiscovery.Refresh
        rw [if_pos hfresh2]
        exact Nat.le_refl 1
  · intro hstale
    have hnot : ¬ (env1.now < d.lastUpdate + d.timeout) := by omega
    unfold PshawnRegistryDiscovery.Refresh
    rw [if_neg hnot]
    split <;> rfl
  · intro hfresh
    unfold PshawnRegistryDiscovery.Refresh
    rw [if_pos hfresh]
    exact ⟨rfl, rfl, rfl⟩

/-- C7. For every value `h` of the response header, a `Refresh` that queries and
gets a response sets the server list to the pieces of `h` between its commas
(joined by commas they give `h` back, and none contains a comma), each
trimmed of surrounding white space, the empty ones dropped, in their order;
no element of the list is empty or starts or ends with white space.
`"a, b ,,c"` gives `["a","b","c"]` and the empty string the empty list. -/
theorem refresh_parses_header :
    (∀ h : String,
      (∀ (d : PshawnRegistryDiscovery) (env : RefreshEnv) (status : Int),
        d.lastUpdate + d.timeout ≤ env.now → env.get = HttpGetResult.response status h →
        (d.Refresh env).err = none ∧ (d.Refresh env).state.servers = refreshServers h) ∧
      refreshServers h = ((Split h).map TrimSpace).filter (fun x => x ≠ "") ∧
      List.intercalate [','] ((Split h).map String.data) = h.data ∧
      (∀ t ∈ Split h, ',' ∉ t.data) ∧
      (∀ x ∈ refreshServers h, x ≠ "" ∧
        (∀ c, x.data.head? = some c → isSpace c = false) ∧
        (∀ c, x.data.getLast? = some c → isSpace c = false))) ∧
    refreshServers "a, b ,,c" = ["a", "b", "c"] ∧
    refreshServers "" = [] := by
  refine ⟨?_, by decide, by decide⟩
  intro h
  have hparse : refreshServers h = ((Split h).map TrimSpace).filter (fun x => x ≠ "") := by
    unfold refreshServers
    rw [foldl_refreshStep]
    rfl
  refine ⟨?_, hparse, ?_, ?_, ?_⟩
  · intro d env status hstale hget
    have hnot : ¬ (env.now < d.lastUpdate + d.timeout) := by omega
    unfold PshawnRegistryDiscovery.Refresh
    rw [if_neg hnot, hget]
    exact ⟨rfl, rfl⟩
  · have hmap : (Split h).map String.data = splitComma h.data := by
      unfold Split
      rw [List.map_map]
      exact List.map_id _
    rw [hmap]
    exact intercalate_splitComma _
  · intro t ht
    unfold Split at ht
    obtain ⟨cs, hcs, rfl⟩ := List.mem_map.1 ht
    exact not_mem_splitComma _ cs hcs
  · intro x hx
    rw [hparse] at hx
    obtain ⟨hmem, hne⟩ := List.mem_filter.1 hx
    obtain ⟨t, _, rfl⟩ := List.mem_map.1 hmem
    exact ⟨by simpa using hne, TrimSpace_ends t⟩

/-- Counterexample to C5 as stated: the cache `["a"]` is stale at time 100 and
the query is answered with status 500 and no servers header; `Refresh` returns
no error, the list becomes empty and `lastUpdate` becomes 100. -/
theorem refresh_accepts_error_status :
    cachedDiscovery.lastUpdate + cachedDiscovery.timeout ≤ 100 ∧
    cachedDiscovery.servers = ["a"] ∧
    (cachedDiscovery.Refresh
      { now := 100, get := HttpGetResult.response 500 "", done := 100 }).err = none ∧
    (cachedDiscovery.Refresh
      { now := 100, get := HttpGetResult.response 500 "", done := 100 }).state.servers = [] ∧
    (cachedDiscovery.Refresh
      { now := 100, get := HttpGetResult.response 500 "", done := 100 }).state.lastUpdate
        = 100 := by
  decide

/-- Witness of C5 (amended): the stale cache `["a"]` and a refused connection;
the error comes back and the state is as before. -/
theorem refresh_failure_keeps_cache_witness :
    cachedDiscovery.lastUpdate + cachedDiscovery.timeout ≤ 100 ∧
    (cachedDiscovery.Refresh
      { now := 100, get := HttpGetResult.failed "connection refused", done := 101 }).err
        = some "connection refused" ∧
    (cachedDiscovery.Refresh
      { now := 100, get := HttpGetResult.failed "connection refused", done := 101 }).state
        = cachedDiscovery :=
  ⟨by decide,
    ((refresh_failure_keeps_cache cachedDiscovery
      { now := 100, get := HttpGetResult.failed "connection refused", done := 101 }
      (by decide)).1 "connection refused" rfl).1,
    ((refresh_failure_keeps_cache cachedDiscovery
      { now := 100, get := HttpGetResult.failed "connection refused", done := 101 }
      (by decide)).1 "connection refused" rfl).2.1⟩

/-- Counterexample to C6 as stated: the cache is stale at `t1 = 100`, the query
of the first `Refresh` fails, and the second `Refresh` at `t2 = 105 < t1 + 10`
queries again: two queries in total. -/
theorem refresh_retries_after_failure :
    (100 : Int) ≤ 105 ∧ (105 : Int) < 100 + cachedDiscovery.timeout ∧
    (cachedDiscovery.Refresh
      { now := 100, get := HttpGetResult.failed "connection refused", done := 100 }).queries +
    ((cachedDiscovery.Refresh
      { now := 100, get := HttpGetResult.failed "connection refused", done := 100 }).state.Refresh
      { now := 105, get := HttpGetResult.response 200 "a", done := 105 }).queries = 2 := by
  decide

/-- Witness of C6 (amended): the first `Refresh` at 100 queries and succeeds, the
second at 105 does not query. -/
theorem refresh_throttle_witness :
    (100 : Int) ≤ 101 ∧ (100 : Int) ≤ 105 ∧ (105 : Int) < 100 + cachedDiscovery.timeout ∧
    (cachedDiscovery.Refresh
      { now := 100, get := HttpGetResult.response 200 "a,b", done := 101 }).err = none ∧
    (cachedDiscovery.Refresh
      { now := 100, get := HttpGetResult.response 200 "a,b", done := 101 }).queries +
    ((cachedDiscovery.Refresh
      { now := 100, get := HttpGetResult.response 200 "a,b", done := 101 }).state.Refresh
      { now := 105, get := HttpGetResult.failed "connection refused", done := 106 }).queries
        ≤ 1 :=
  ⟨by decide, by decide, by decide, by decide,
    (refresh_throttle cachedDiscovery
      { now := 100, get := HttpGetResult.response 200 "a,b", done := 101 }
      { now := 105, get := HttpGetResult.failed "connection refused", done := 106 }).1
      (by decide) (by decide) (by decide) (by decide)⟩

/-- Witness of C7: the stale cache refreshed with the header `"a, b ,,c"`. -/
theorem refresh_parses_header_witness :
    cachedDiscovery.lastUpdate + cachedDiscovery.timeout ≤ 100 ∧
    (cachedDiscovery.Refresh
      { now := 100, get := HttpGetResult.response 200 "a, b ,,c", done := 101 }).err = none ∧
    (cachedDiscovery.Refresh
      { now := 100, get := HttpGetResult.response 200 "a, b ,,c", done := 101 }).state.servers
        = refreshServers "a, b ,,c" :=
  ⟨by decide,
    (refresh_parses_header.1 "a, b ,,c").1 cachedDiscovery
      { now := 100, get := HttpGetResult.response 200 "a, b ,,c", done := 101 } 200
      (by decide) rfl⟩

end XClient

/-! ## Registry: the handler and the heartbeat -/

namespace Registry

theorem foldl_join_append (sep : String) (rest : List String) (x y : String) :
    rest.foldl (fun b s => b ++ sep ++ s) (x ++ y) = x ++ rest.foldl (fun b s => b ++ sep ++ s) y := by
  induction rest generalizing y with
  | nil => rfl
  | cons s rest ih =>
    simp only [List.foldl_cons]
    rw [String.append_assoc, String.append_assoc, ← String.append_assoc y, ih]

theorem Join_cons_cons (a b : String) (rest : List String) (sep : String) :
    Join (a :: b :: rest) sep = a ++ (sep ++ Join (b :: rest) sep) := by
  show (b :: rest).foldl (fun b s => b ++ sep ++ s) a = _
  rw [List.foldl_cons, String.append_assoc, foldl_join_append, foldl_join_append]
  rfl

/-- The characters of `strings.Join(l, sep)`: the elements of `l` with `sep`
between each two of them, and nothing before the first or after the last. -/
theorem Join_data (l : List String) (sep : String) :
    (Join l sep).data = List.intercalate sep.data (l.map String.data) := by
  induction l with
  | nil => rfl
  | cons a l ih =>
    cases l with
    | nil => simp [Join, List.intercalate, List.intersperse]
    | cons b rest =>
      rw [Join_cons_cons, String.data_append, String.data_append, ih]
      simp [List.intercalate, List.intersperse]

/-- C13. A request the handler rejects leaves the registry as it is: a POST
whose address header is absent or empty is answered with the status 500 and
no entry is inserted or refreshed, a request whose method is neither GET nor
POST is answered with the status 405 (method not allowed) and no entry is
touched; whenever the status is not 200 the registry is unchanged. -/
theorem ServeHTTP_rejects (r : PshawnRegistry) (req : Request) (now : Int) :
    (req.Method = "POST" → req.server = "" →
      r.ServeHTTP req now =
        ({ statusCode := StatusInternalServerError, servers := none }, r)) ∧
    (req.Method ≠ "GET" → req.Method ≠ "POST" →
      r.ServeHTTP req now =
        ({ statusCode := StatusMethodNotAllowed, servers := none }, r)) ∧
    ((r.ServeHTTP req now).1.statusCode ≠ StatusOK → (r.ServeHTTP req now).2 = r) := by
  refine ⟨?_, ?_, ?_⟩
  · intro hm hs
    have hget : ¬ req.Method = "GET" := by
      rw [hm]
      decide
    unfold PshawnRegistry.ServeHTTP
    rw [if_neg hget, if_pos hm, if_pos hs]
  · intro hget hpost
    unfold PshawnRegistry.ServeHTTP
    rw [if_neg hget, if_neg hpost]
  · unfold PshawnRegistry.ServeHTTP
    split
    · intro h
      exact absurd rfl h
    · split
      · split
        · intro _
          rfl
        · intro h
          exact absurd rfl h
      · intro _
        rfl

/-- C14. The handler answers a GET, at every state and time, with the status 200
and the servers header set to the slice `aliveServers` returns (which is
sorted) joined by `","`: its characters are the addresses with one comma
between each two of them and no comma before the first or after the last; when
no address is alive the value is the empty string.  The registry after the
request is the one `aliveServers` leaves. -/
theorem ServeHTTP_query (r : PshawnRegistry) (req : Request) (now : Int)
    (hget : req.Method = "GET") :
    (r.ServeHTTP req now).1.statusCode = StatusOK ∧
    (r.ServeHTTP req now).1.servers = some (Join (r.aliveServers now).1 ",") ∧
    (Join (r.aliveServers now).1 ",").data =
      List.intercalate [','] ((r.aliveServers now).1.map String.data) ∧
    (r.aliveServers now).1.Sorted (· < ·) ∧
    ((r.aliveServers now).1 = [] → (r.ServeHTTP req now).1.servers = some "") ∧
    (r.ServeHTTP req now).2 = (r.aliveServers now).2 := by
  have hR : r.ServeHTTP req now =
      ({ statusCode := StatusOK, servers := some (Join (r.aliveServers now).1 ",") },
        (r.aliveServers now).2) := by
    unfold PshawnRegistry.ServeHTTP
    rw [if_pos hget]
  refine ⟨by rw [hR], by rw [hR], Join_data _ ",", aliveServersAt_sorted r _, ?_, by rw [hR]⟩
  intro hnil
  rw [hR, hnil]
  rfl

theorem heartbeatLoop_stopped (outcome : Nat → HttpDoResult) (ticks : Nat) (e : String)
    (sent : Nat) : heartbeatLoop outcome ticks (some e, sent) = (some e, sent) := by
  cases ticks <;> rfl

/-- While the announces return no error the loop sends one announce per tick. -/
theorem heartbeatLoop_running (outcome : Nat → HttpDoResult) (ticks : Nat) :
    ∀ p : Nat, (∀ i, p ≤ i → i < p + ticks → sendHeartbeat (outcome i) = none) →
      (heartbeatLoop outcome ticks (sendHeartbeat (outcome p), p + 1)).2 = p + 1 + ticks := by
  induction ticks with
  | zero =>
    intro p _
    rfl
  | succ ticks ih =>
    intro p h
    have hp : sendHeartbeat (outcome p) = none := h p (Nat.le_refl p) (by omega)
    rw [hp]
    show (heartbeatLoop outcome ticks (sendHeartbeat (outcome (p + 1)), p + 1 + 1)).2 = _
    rw [ih (p + 1) (fun i h1 h2 => h i (by omega) (by omega))]
    omega

/-- Once an announce has returned an error the loop sends no announce. -/
theorem heartbeatLoop_failed (outcome : Nat → HttpDoResult) (ticks : Nat) :
    ∀ p j : Nat, p ≤ j → j ≤ p + ticks →
      (∀ i, p ≤ i → i < j → sendHeartbeat (outcome i) = none) →
      sendHeartbeat (outcome j) ≠ none →
      heartbeatLoop outcome ticks (sendHeartbeat (outcome p), p + 1) =
        (sendHeartbeat (outcome j), j + 1) := by
  induction ticks with
  | zero =>
    intro p j h1 h2 _ _
    have : j = p := by omega
    subst this
    rfl
  | succ ticks ih =>
    intro p j h1 h2 hok hfail
    by_cases hjp : j = p
    · subst hjp
      cases hs : sendHeartbeat (outcome j) with
      | none => exact absurd hs hfail
      | some e => rw [heartbeatLoop_stopped]
    · have hp : sendHeartbeat (outcome p) = none := hok p (Nat.le_refl p) (by omega)
      rw [hp]
      show heartbeatLoop outcome ticks (sendHeartbeat (outcome (p + 1)), p + 1 + 1) = _
      exact ih (p + 1) j (by omega) (by omega) (fun i h3 h4 => hok i (by omega) h4) hfail

/-- C15 (amended). For every sequence of announce outcomes, `Heartbeat` sends one
announce at once and then one per tick as long as every earlier announce
returned no error; once an announce has failed by a network error (an error of
`httpClient.Do`), no announce is sent on any later tick.  A response is no
failure for the loop, whatever its status code. -/
theorem Heartbeat_fail_stop (outcome : Nat → HttpDoResult) (ticks : Nat) :
    (Heartbeat outcome 0).2 = 1 ∧
    ((∀ i, i < ticks → ∃ code, outcome i = HttpDoResult.response code) →
      (Heartbeat outcome ticks).2 = ticks + 1) ∧
    (∀ j err, j ≤ ticks → (∀ i, i < j → ∃ code, outcome i = HttpDoResult.response code) →
      outcome j = HttpDoResult.failed err →
      (Heartbeat outcome ticks).2 = j + 1 ∧ (Heartbeat outcome ticks).1 = some err) ∧
    (∀ code, sendHeartbeat (HttpDoResult.response code) = none) := by
  have hresp : ∀ i, (∃ code, outcome i = HttpDoResult.response code) →
      sendHeartbeat (outcome i) = none := by
    rintro i ⟨code, hc⟩
    rw [hc]
    rfl
  refine ⟨rfl, ?_, ?_, fun _ => rfl⟩
  · intro hok
    unfold Heartbeat
    rw [heartbeatLoop_running outcome ticks 0 (fun i _ h2 => hresp i (hok i (by omega)))]
    omega
  · intro j err hj hok hfail
    have hne : sendHeartbeat (outcome j) ≠ none := by
      rw [hfail]
      exact fun h => nomatch h
    have hrun : Heartbeat outcome ticks = (sendHeartbeat (outcome j), j + 1) := by
      unfold Heartbeat
      exact heartbeatLoop_failed outcome ticks 0 j (Nat.zero_le j) (by omega)
        (fun i _ h2 => hresp i (hok i h2)) hne
    rw [hrun, hfail]
    exact ⟨rfl, rfl⟩

/-- Counterexample to C15 as stated: every announce is answered with the status
500, a non-success response, and after three ticks four announces have been
sent and the variable `err` is still `nil`. -/
theorem Heartbeat_continues_after_error_status :
    Heartbeat (fun _ => HttpDoResult.response 500) 3 = (none, 4) := by
  decide

/-- Witness of C13: in the scenario a POST without address is answered 500, a PUT
is answered 405, and the registry stays as it was. -/
theorem ServeHTTP_rejects_witness :
    scenario.ServeHTTP { Method := "POST", server := "" } 7 =
      ({ statusCode := StatusInternalServerError, servers := none }, scenario) ∧
    scenario.ServeHTTP { Method := "PUT", server := "S3" } 7 =
      ({ statusCode := StatusMethodNotAllowed, servers := none }, scenario) :=
  ⟨(ServeHTTP_rejects scenario { Method := "POST", server := "" } 7).1 rfl rfl,
    (ServeHTTP_rejects scenario { Method := "PUT", server := "S3" } 7).2.1
      (by decide) (by decide)⟩

/-- Witness of C14: in the scenario a GET at time 0 is answered with the header
`"S1,S2"`. -/
theorem ServeHTTP_query_witness :
    (scenario.ServeHTTP { Method := "GET", server := "" } 0).1.servers = some "S1,S2" ∧
    (scenario.ServeHTTP { Method := "GET", server := "" } 0).1.servers =
      some (Join (scenario.aliveServers 0).1 ",") :=
  ⟨by decide, (ServeHTTP_query scenario { Method := "GET", server := "" } 0 rfl).2.1⟩

/-- Witness of C15 (amended): the announce number 1 meets a network error; after
five ticks two announces have been sent. -/
theorem Heartbeat_fail_stop_witness :
    (Heartbeat (fun i => if i = 1 then HttpDoResult.failed "connection refused"
      else HttpDoResult.response 200) 5).2 = 1 + 1 ∧
    (Heartbeat (fun i => if i = 1 then HttpDoResult.failed "connection refused"
      else HttpDoResult.response 200) 5).1 = some "connection refused" :=
  (Heartbeat_fail_stop (fun i => if i = 1 then HttpDoResult.failed "connection refused"
      else HttpDoResult.response 200) 5).2.2.1 1 "connection refused" (by decide)
    (fun i hi => ⟨200, by
      have h0 : i = 0 := by omega
      subst h0
      rfl⟩)
    rfl

end Registry

/-! ## Discovery: selection, update and the wire format -/

namespace XClient

theorem sliceAt_of_lt (s : List String) (i : Int) (h0 : 0 ≤ i) (h1 : i < s.length) :
    ∃ x, s[i.toNat]? = some x ∧ x ∈ s ∧ sliceAt s i = some x := by
  lift i to ℕ using h0 with k
  have hk : k < s.length := by omega
  have hget : s[k]? = some s[k] := List.getElem?_eq_getElem hk
  refine ⟨s[k], ?_, List.getElem_mem hk, ?_⟩
  · rw [Int.toNat_natCast]
    exact hget
  · rw [sliceAt_natCast]
    exact hget

/-- C11. On an empty server list `Get` fails, for every value of the mode
(`RandomSelect`, `RoundRobinSelect` or any other): it returns the empty string
and the error `no available servers`, and the list and the cursor are
unchanged. -/
theorem Get_empty (d : MultiServerDiscovery) (mode : SelectMode) (draw : Int)
    (hempty : d.servers = []) :
    d.Get mode draw = some (("", some errNoServers), d) := by
  unfold MultiServerDiscovery.Get
  simp [hempty]

/-- C12. On a non-empty server list, in every state the discovery goes through
and for every draw of the random source in `[0, n)`, `Get` returns (it does
not panic), and it returns an error if and only if the mode is neither
`RandomSelect` nor `RoundRobinSelect`; the error is then `not supported select
mode`, with the empty string, and the state is unchanged; for the two
supported modes the result is an element of the list and the list is kept. -/
theorem Get_nonempty (d : MultiServerDiscovery) (mode : SelectMode) (draw : Int)
    (hr : Reachable d) (hne : d.servers ≠ []) (h0 : 0 ≤ draw)
    (h1 : draw < d.servers.length) :
    ∃ res d', d.Get mode draw = some (res, d') ∧
      (res.2 ≠ none ↔ (mode ≠ RandomSelect ∧ mode ≠ RoundRobinSelect)) ∧
      ((mode ≠ RandomSelect ∧ mode ≠ RoundRobinSelect) →
        res = ("", some errSelectMode) ∧ d' = d) ∧
      ((mode = RandomSelect ∨ mode = RoundRobinSelect) →
        res.2 = none ∧ res.1 ∈ d.servers ∧ d'.servers = d.servers) := by
  have hpos : 0 < d.servers.length := List.length_pos.2 hne
  have hn0 : ¬ ((d.servers.length : Int) = 0) := by omega
  have hdiff : ¬ (RoundRobinSelect = RandomSelect) := by decide
  by_cases hrand : mode = RandomSelect
  · subst hrand
    obtain ⟨x, _, hx, hs⟩ := sliceAt_of_lt d.servers draw h0 h1
    refine ⟨(x, none), d, ?_, ?_, ?_, ?_⟩
    · unfold MultiServerDiscovery.Get
      simp only [hn0, if_false, if_true, hs]
      rfl
    · simp
    · intro h
      exact absurd rfl h.1
    · intro _
      exact ⟨rfl, hx, rfl⟩
  · by_cases hrr : mode = RoundRobinSelect
    · subst hrr
      obtain ⟨i0, i1, _⟩ := hr.bounds
      obtain ⟨servers, index⟩ := d
      simp only at i0 i1 hne
      lift index to ℕ using i0 with c
      obtain ⟨hget, hidx⟩ := Get_roundRobin_nat servers c draw hne i1
      refine ⟨_, _, hget, ?_, ?_, ?_⟩
      · simp
      · intro h
        exact absurd rfl h.2
      · intro _
        exact ⟨rfl, List.getElem?_mem hidx, rfl⟩
    · refine ⟨("", some errSelectMode), d, ?_, ?_, ?_, ?_⟩
      · unfold MultiServerDiscovery.Get
        simp only [hn0, if_false, hrand, hrr]
      · simp [hrand, hrr]
      · intro _
        exact ⟨rfl, rfl⟩
      · rintro (h | h)
        · exact absurd h hrand
        · exact absurd h hrr

/-- C16. For every state and every list `s`, `Update(s)` succeeds and keeps the
cursor, and a following `GetAll` returns exactly `s`, with no error; `GetAll`
never fails, returns the list as it is and leaves the list and the cursor
unchanged. -/
theorem Update_GetAll (d : MultiServerDiscovery) (s : List String) :
    (d.Update s).1 = none ∧
    (d.Update s).2.index = d.index ∧
    (d.Update s).2.GetAll.1 = (s, none) ∧
    d.GetAll.1 = (d.servers, none) ∧
    d.GetAll.2 = d :=
  ⟨rfl, rfl, rfl, rfl, rfl⟩

/-- C17. On a non-empty list of `n` servers, for every drawn index `i` in
`[0, n)`, `Get(RandomSelect)` returns `servers[i]`, a member of the list, with
no error, and leaves the state (list and cursor) unchanged; so a following
`Get(RoundRobinSelect)` does what it would have done without the random
call. -/
theorem Get_random (d : MultiServerDiscovery) (i : Int) (hne : d.servers ≠ [])
    (h0 : 0 ≤ i) (h1 : i < d.servers.length) :
    ∃ x, d.servers[i.toNat]? = some x ∧ x ∈ d.servers ∧
      d.Get RandomSelect i = some ((x, none), d) ∧
      (∀ draw, (d.Get RandomSelect i).bind (fun p => p.2.Get RoundRobinSelect draw) =
        d.Get RoundRobinSelect draw) := by
  have hpos : 0 < d.servers.length := List.length_pos.2 hne
  have hn0 : ¬ ((d.servers.length : Int) = 0) := by omega
  obtain ⟨x, hx, hmem, hs⟩ := sliceAt_of_lt d.servers i h0 h1
  have hget : d.Get RandomSelect i = some ((x, none), d) := by
    unfold MultiServerDiscovery.Get
    simp only [hn0, if_false, if_true, hs]
    rfl
  refine ⟨x, hx, hmem, hget, ?_⟩
  intro draw
  rw [hget]
  rfl

/-- C20. For every state, list `s` and time `t`, `Update(s)` at `t` succeeds and
sets the server list to `s` and `lastUpdate` to `t`; a `Refresh`, `Get` or
`GetAll` called at a time `t'` with `t <= t' < t + refreshTimeout` then makes
no registry query: `Refresh` returns no error and changes nothing, `GetAll`
returns exactly `s`, and `Get` is the `Get` of the embedded discovery. -/
theorem Update_fills_cache (d : PshawnRegistryDiscovery) (s : List String) (t : Int)
    (env : RefreshEnv) (_h1 : t ≤ env.now) (h2 : env.now < t + d.timeout) :
    (d.Update s t).1 = none ∧
    (d.Update s t).2.servers = s ∧
    (d.Update s t).2.lastUpdate = t ∧
    ((d.Update s t).2.Refresh env).err = none ∧
    ((d.Update s t).2.Refresh env).queries = 0 ∧
    ((d.Update s t).2.Refresh env).state = (d.Update s t).2 ∧
    (d.Update s t).2.GetAll env = ((s, none), 0, (d.Update s t).2) ∧
    (∀ mode draw, (d.Update s t).2.Get mode env draw =
      ((d.Update s t).2.toMultiServerDiscovery.Get mode draw).map
        (fun p => (p.1, 0, { (d.Update s t).2 with toMultiServerDiscovery := p.2 }))) := by
  have hfresh : env.now < (d.Update s t).2.lastUpdate + (d.Update s t).2.timeout := h2
  have hR : (d.Update s t).2.Refresh env =
      { err := none, queries := 0, state := (d.Update s t).2 } := by
    unfold PshawnRegistryDiscovery.Refresh
    rw [if_pos hfresh]
  refine ⟨rfl, rfl, rfl, by rw [hR], by rw [hR], by rw [hR], ?_, ?_⟩
  · unfold PshawnRegistryDiscovery.GetAll
    simp only [hR]
    rfl
  · intro mode draw
    unfold PshawnRegistryDiscovery.Get
    simp only [hR]

theorem splitComma_cons_comma (cs : List Char) :
    splitComma (',' :: cs) = [] :: splitComma cs := by
  conv_lhs => unfold splitComma
  rw [if_pos rfl]

theorem splitComma_cons_ne (c : Char) (cs : List Char) (hc : ¬ c = ',') (t : List Char)
    (ts : List (List Char)) (h : splitComma cs = t :: ts) :
    splitComma (c :: cs) = (c :: t) :: ts := by
  conv_lhs => unfold splitComma
  rw [if_neg hc, h]

theorem splitComma_of_no_comma (a : List Char) (h : ',' ∉ a) : splitComma a = [a] := by
  induction a with
  | nil => rfl
  | cons c a ih =>
    have hc : ¬ c = ',' := fun hc => h (by rw [hc]; exact List.mem_cons_self _ _)
    have ha : ',' ∉ a := fun ha => h (List.mem_cons_of_mem _ ha)
    exact splitComma_cons_ne c a hc a [] (ih ha)

theorem splitComma_append_comma (a : List Char) (h : ',' ∉ a) (rest : List Char) :
    splitComma (a ++ ',' :: rest) = a :: splitComma rest := by
  induction a with
  | nil => exact splitComma_cons_comma rest
  | cons c a ih =>
    have hc : ¬ c = ',' := fun hc => h (by rw [hc]; exact List.mem_cons_self _ _)
    have ha : ',' ∉ a := fun ha => h (List.mem_cons_of_mem _ ha)
    exact splitComma_cons_ne c (a ++ ',' :: rest) hc a (splitComma rest) (ih ha)

/-- Splitting the join of a non-empty list of comma-free strings gives the list
back. -/
theorem Split_Join (l : List String) (hne : l ≠ []) (h : ∀ a ∈ l, ',' ∉ a.data) :
    Split (Registry.Join l ",") = l := by
  induction l with
  | nil => exact absurd rfl hne
  | cons a l ih =>
    have ha : ',' ∉ a.data := h a (List.mem_cons_self _ _)
    cases l with
    | nil =>
      show (splitComma a.data).map String.mk = [a]
      rw [splitComma_of_no_comma a.data ha]
      rfl
    | cons b rest =>
      have hrec := ih (List.cons_ne_nil _ _) (fun x hx => h x (List.mem_cons_of_mem _ hx))
      unfold Split at hrec ⊢
      rw [Registry.Join_cons_cons, String.data_append, String.data_append]
      show (splitComma (a.data ++ ',' :: (Registry.Join (b :: rest) ",").data)).map String.mk = _
      rw [splitComma_append_comma a.data ha, List.map_cons, hrec]

/-- A string that neither starts nor ends with white space is left as it is by
`TrimSpace`. -/
theorem TrimSpace_of_trimmed (a : String)
    (hhead : ∀ c, a.data.head? = some c → isSpace c = false)
    (hlast : ∀ c, a.data.getLast? = some c → isSpace c = false) : TrimSpace a = a := by
  have h1 : a.data.dropWhile isSpace = a.data := by
    cases hd : a.data with
    | nil => rfl
    | cons c rest =>
      have hc : isSpace c = false := hhead c (by rw [hd]; rfl)
      rw [List.dropWhile_cons_of_neg (by simp [hc])]
  have h2 : a.data.rdropWhile isSpace = a.data := by
    rw [List.rdropWhile_eq_self_iff]
    intro hl
    have hc := hlast _ (List.getLast?_eq_getLast _ hl)
    simp [hc]
  unfold TrimSpace
  rw [h1, h2]

/-- C19. Wire round trip: for every list of addresses that are non-empty, hold
no comma and neither start nor end with white space, the list `Refresh` builds
from the string the query handler puts in the servers header, the addresses
joined by `","`, is the list itself, in the same order; the empty list comes
back as the empty list.  So what `Refresh` builds from the header of a GET is
the slice `aliveServers` returned, when the alive addresses are of that kind. -/
theorem wire_round_trip (l : List String)
    (h : ∀ a ∈ l, a ≠ "" ∧ ',' ∉ a.data ∧
      (∀ c, a.data.head? = some c → isSpace c = false) ∧
      (∀ c, a.data.getLast? = some c → isSpace c = false)) :
    refreshServers (Registry.Join l ",") = l ∧
    refreshServers (Registry.Join [] ",") = [] ∧
    (∀ (r : Registry.PshawnRegistry) (req : Registry.Request) (now : Int),
      req.Method = "GET" → (r.aliveServers now).1 = l →
      ∃ header, (r.ServeHTTP req now).1.servers = some header ∧ refreshServers header = l) := by
  have hmain : refreshServers (Registry.Join l ",") = l := by
    by_cases hne : l = []
    · subst hne
      decide
    · unfold refreshServers
      rw [foldl_refreshStep, Split_Join l hne (fun a ha => (h a ha).2.1), List.nil_append]
      have hmap : l.map TrimSpace = l := by
        conv_rhs => rw [← List.map_id l]
        apply List.map_congr_left
        intro a ha
        exact TrimSpace_of_trimmed a (h a ha).2.2.1 (h a ha).2.2.2
      rw [hmap, List.filter_eq_self]
      intro a ha
      simpa using (h a ha).1
  refine ⟨hmain, by decide, ?_⟩
  intro r req now hget hl
  refine ⟨Registry.Join l ",", ?_, hmain⟩
  unfold Registry.PshawnRegistry.ServeHTTP
  rw [if_pos hget, hl]

/-- Witness of C11: an empty list and a mode that is neither of the two named. -/
theorem Get_empty_witness :
    (MultiServerDiscovery.mk [] 7).servers = [] ∧
    (MultiServerDiscovery.mk [] 7).Get 5 0 =
      some (("", some errNoServers), MultiServerDiscovery.mk [] 7) :=
  ⟨rfl, Get_empty (MultiServerDiscovery.mk [] 7) 5 0 rfl⟩

/-- Witness of C12: a discovery made with three servers, the mode 5 and the
draw 2. -/
theorem Get_nonempty_witness :
    Reachable (NewMultiServerDiscovery ["a", "b", "c"] 5) ∧
    (NewMultiServerDiscovery ["a", "b", "c"] 5).servers ≠ [] ∧
    (0 : Int) ≤ 2 ∧
    (2 : Int) < ((NewMultiServerDiscovery ["a", "b", "c"] 5).servers.length : Nat) ∧
    ∃ res d', (NewMultiServerDiscovery ["a", "b", "c"] 5).Get 5 2 = some (res, d') ∧
      res = ("", some errSelectMode) ∧ d' = NewMultiServerDiscovery ["a", "b", "c"] 5 :=
  have hr : Reachable (NewMultiServerDiscovery ["a", "b", "c"] 5) :=
    Reachable.new ["a", "b", "c"] 5 (by decide) (by decide) (by decide)
  ⟨hr, by decide, by decide, by decide,
    match Get_nonempty (NewMultiServerDiscovery ["a", "b", "c"] 5) 5 2 hr (by decide)
      (by decide) (by decide) with
    | ⟨res, d', h1, _, h3, _⟩ =>
      ⟨res, d', h1, h3 ⟨by decide, by decide⟩⟩⟩

/-- Witness of C17: three servers and the draw 2. -/
theorem Get_random_witness :
    (MultiServerDiscovery.mk ["a", "b", "c"] 7).servers ≠ [] ∧ (0 : Int) ≤ 2 ∧
    (2 : Int) < ((MultiServerDiscovery.mk ["a", "b", "c"] 7).servers.length : Nat) ∧
    ∃ x, (MultiServerDiscovery.mk ["a", "b", "c"] 7).servers[(2 : Int).toNat]? = some x ∧
      (MultiServerDiscovery.mk ["a", "b", "c"] 7).Get RandomSelect 2 =
        some ((x, none), MultiServerDiscovery.mk ["a", "b", "c"] 7) :=
  ⟨by decide, by decide, by decide,
    match Get_random (MultiServerDiscovery.mk ["a", "b", "c"] 7) 2 (by decide) (by decide)
      (by decide) with
    | ⟨x, h1, _, h3, _⟩ => ⟨x, h1, h3⟩⟩

/-- Witness of C19: two addresses. -/
theorem wire_round_trip_witness :
    refreshServers (Registry.Join ["10.0.0.1:80", "host:9"] ",") = ["10.0.0.1:80", "host:9"] :=
  (wire_round_trip ["10.0.0.1:80", "host:9"] (by
    intro a ha
    simp only [List.mem_cons, List.mem_singleton, List.not_mem_nil, or_false] at ha
    rcases ha with rfl | rfl <;> refine ⟨by decide, by decide, ?_, ?_⟩ <;>
      intro c hc <;> simp at hc <;> subst hc <;> decide)).1

/-- Witness of C20: the cache of `cachedDiscovery` is filled by hand at time 100
and read at time 105, within its 10 nanoseconds. -/
theorem Update_fills_cache_witness :
    (100 : Int) ≤ 105 ∧ (105 : Int) < 100 + cachedDiscovery.timeout ∧
    ((cachedDiscovery.Update ["x", "y"] 100).2.GetAll
      { now := 105, get := HttpGetResult.failed "connection refused", done := 106 }) =
      ((["x", "y"], none), 0, (cachedDiscovery.Update ["x", "y"] 100).2) :=
  ⟨by decide, by decide,
    (Update_fills_cache cachedDiscovery ["x", "y"] 100
      { now := 105, get := HttpGetResult.failed "connection refused", done := 106 }
      (by decide) (by decide)).2.2.2.2.2.2.1⟩

end XClient
